/-
Verification of the design-file extraction engine and the contrast-aware
color derivation of the tokken repository.

The development is a shallow embedding of the JavaScript/TypeScript source:

* tree-shaped design nodes become an inductive type `FigmaNode`;
* JS objects and Maps become association lists (`List (String × β)`); a JS
  object or a JS `Map` has unique keys, so lookup is `find?`; the node index
  `nodeMap` is built by repeated `set` calls that may overwrite, so its
  lookup takes the last write;
* JS numbers become real numbers (`ℝ`); `Math.pow x 2.4` becomes the real
  power `x ^ (2.4 : ℝ)` and `Math.round` becomes `⌊x + 1/2⌋`;
* hex color strings are represented by their parsed channel triple `RGB`
  (`hexToRgb` of a canonical 6-digit string), so the source composition
  `hexToRgb ∘ rgbToHex` collapses to the clamp-and-round step of `rgbToHex`;
* async network calls become oracle functions passed as parameters, and a
  thrown JS error becomes an `Except` value.
-/
import Mathlib

set_option maxRecDepth 4000

namespace Tokken

/-! ## Data model: design nodes (part_004, interfaces FigmaNode / FigmaFile)

A design node is a tagged tree node.  Only the fields that the verified
operations inspect are modelled: `id`, `name`, the component property
definitions, and `children`.  The visual attributes (fills, strokes,
effects, layout) are irrelevant to the claims settled here and are covered
by the abstract style harvest `styleOf` below. -/

/-- One entry of a node's `componentPropertyDefinitions` map
(part_004, used at lines 812-820 and 845-853). -/
structure PropDef where
  type : String
  defaultValue : String
  variantOptions : Option (List String)
deriving DecidableEq

/-- A design-tool document node: `id`, `name`,
`componentPropertyDefinitions`, `children` (part_004, interface FigmaNode). -/
inductive FigmaNode : Type where
  | node (id name : String) (props : List (String × PropDef))
      (children : List FigmaNode) : FigmaNode

/-- The `id` field of a node. -/
def FigmaNode.id : FigmaNode → String
  | .node i _ _ _ => i

/-- The `name` field of a node. -/
def FigmaNode.name : FigmaNode → String
  | .node _ n _ _ => n

/-- The `componentPropertyDefinitions` field of a node. -/
def FigmaNode.props : FigmaNode → List (String × PropDef)
  | .node _ _ p _ => p

/-- The `children` field of a node (absent children modelled as `[]`). -/
def FigmaNode.children : FigmaNode → List FigmaNode
  | .node _ _ _ c => c

/-! ## JS map lookups -/

/-- Lookup in a JS object or JS `Map` whose keys are unique by construction
(`componentsMeta`, `componentSetsMeta`, the variant-set accumulator). -/
def jget {β : Type} (m : List (String × β)) (k : String) : Option β :=
  (m.find? (fun e => e.1 == k)).map (fun e => e.2)

/-- Lookup in an append-built map where a later `set` overwrites an earlier
one (the `nodeMap` / `nodeFrameMap` index): the last write wins. -/
def lastGet {β : Type} (m : List (String × β)) (k : String) : Option β :=
  match m with
  | [] => none
  | e :: rest =>
    match lastGet rest k with
    | some v => some v
    | none => if e.1 == k then some e.2 else none

/-- Source `Map.set` semantics on an association list with unique keys: update the
existing entry in place, else append a fresh entry built from `init`
(part_004, lines 796-806: `existing` is mutated, a new set is `set`). -/
def mapSet {β : Type} (m : List (String × β)) (k : String) (f : β → β)
    (init : β) : List (String × β) :=
  match m with
  | [] => [(k, init)]
  | e :: rest =>
    if e.1 == k then (e.1, f e.2) :: rest else e :: mapSet rest k f init

/-! ## Raw-token traversal (part_004, `extractRawTokens`, lines 895-946)

`traverseNode` performs its per-node token harvesting and then recurses
into `node.children` in order (`node.children.forEach(traverseNode)`).
The visit sequence of that recursion is modelled by `visitOrder`; the
per-node work does not influence which nodes are visited or in which
order. -/

mutual

/-- The sequence of nodes visited by `traverseNode` (part_004, lines
895-946): the node itself first, then the visit sequences of its children
in order. -/
def visitOrder : FigmaNode → List FigmaNode
  | .node i n p c => .node i n p c :: visitOrderList c

/-- Visit sequence of a child list, in order (`children.forEach`). -/
def visitOrderList : List FigmaNode → List FigmaNode
  | [] => []
  | x :: xs => visitOrder x ++ visitOrderList xs

end

mutual

/-- The tree positions (paths of child indices) in the order `traverseNode`
visits them: the root path `[]` first, then for the `i`-th child all of its
positions prefixed with `i`. -/
def visitPaths : FigmaNode → List (List ℕ)
  | .node _ _ _ c => [] :: visitPathsList 0 c

/-- Positions contributed by the children starting at child index `i`. -/
def visitPathsList : ℕ → List FigmaNode → List (List ℕ)
  | _, [] => []
  | i, x :: xs => (visitPaths x).map (fun p => i :: p) ++ visitPathsList (i + 1) xs

end

mutual

/-- The node of a tree at a given path of child indices, if the path is
valid. -/
def nodeAt : FigmaNode → List ℕ → Option FigmaNode
  | t, [] => some t
  | .node _ _ _ c, i :: p => nodeAtList c i p

/-- The node at path `p` inside the `i`-th element of a child list. -/
def nodeAtList : List FigmaNode → ℕ → List ℕ → Option FigmaNode
  | [], _, _ => none
  | x :: _, 0, p => nodeAt x p
  | _ :: xs, i + 1, p => nodeAtList xs i p

end

/-! ## Component extraction (part_004, `extractComponents`, lines 751-874) -/

/-- One value of the file's `components` metadata map (part_004):
`name`, `description`, optional `componentSetId`. -/
structure CompMeta where
  name : String
  description : String
  componentSetId : Option String
deriving DecidableEq

/-- One value of the file's `componentSets` metadata map. -/
structure SetMeta where
  name : String
  description : String
deriving DecidableEq

/-- One entry of an `ExtractedComponent.properties` record (part_004,
lines 812-819: `{type, defaultValue, options: variantOptions}`). -/
structure PropEntry where
  type : String
  defaultValue : String
  options : Option (List String)
deriving DecidableEq

/-- An extracted component (part_004, interface ExtractedComponent).  The
harvested visual styles are abstracted by a type parameter `α`: none of the
verified claims depends on their content. -/
structure ExtractedComponent (α : Type) where
  name : String
  description : String
  variants : List String
  properties : List (String × PropEntry)
  setName : Option String
  nodeId : String
  styles : Option α
  group : Option String
deriving DecidableEq

/-- Accumulator entry of the `setComponents` map (part_004, line 783). -/
structure SetData where
  meta : SetMeta
  variants : List String
  variantNodeIds : List String
deriving DecidableEq

mutual

/-- Source `indexNodes` (part_004, lines 760-768), `nodeMap` part: pre-order
`(id, node)` writes for a top-level child's subtree. -/
def indexNodes : FigmaNode → List (String × FigmaNode)
  | .node i n p c => (i, .node i n p c) :: indexNodesList c

/-- Source `nodeMap` writes contributed by a child list. -/
def indexNodesList : List FigmaNode → List (String × FigmaNode)
  | [] => []
  | x :: xs => indexNodes x ++ indexNodesList xs

end

mutual

/-- Source `indexNodes` (part_004, lines 760-768), `nodeFrameMap` part: every node
of a top-level child's subtree is tagged with its page name `g`. -/
def frameNodes : FigmaNode → String → List (String × String)
  | .node i _ _ c, g => (i, g) :: frameNodesList c g

/-- Source `nodeFrameMap` writes contributed by a child list. -/
def frameNodesList : List FigmaNode → String → List (String × String)
  | [], _ => []
  | x :: xs, g => frameNodes x g ++ frameNodesList xs g

end

/-- The `nodeMap` writes of `extractComponents` (part_004, lines 769-779):
each page is indexed, then each of its top-level children's subtrees. -/
def buildNodeMap (doc : FigmaNode) : List (String × FigmaNode) :=
  doc.children.flatMap (fun page =>
    (page.id, page) :: page.children.flatMap indexNodes)

/-- The `nodeFrameMap` writes of `extractComponents`: subtrees of a page's
top-level children are tagged with the page name. -/
def buildFrameMap (doc : FigmaNode) : List (String × String) :=
  doc.children.flatMap (fun page =>
    page.children.flatMap (fun ch => frameNodes ch page.name))

/-- Copy a node's `componentPropertyDefinitions` into the `properties`
record of an extracted component (part_004, lines 812-820 and 845-853). -/
def mkProps (n : FigmaNode) : List (String × PropEntry) :=
  n.props.map (fun e => (e.1, ⟨e.2.type, e.2.defaultValue, e.2.variantOptions⟩))

/-- Model of `name.startsWith()` applied to the reserved private-prefix
character (part_004, lines 788, 793 and 840): the first character of the
string is a full stop (code point 46). -/
def startsWithDot (s : String) : Bool :=
  s.toList.head? == some (Char.ofNat 46)

/-- The fallback set metadata when `componentSetsMeta` has no entry for the
set id (part_004, line 802): `meta.name.split()[0]`, i.e. the first
variant's name up to the first slash, with an empty description. -/
def fallbackSetMeta (variantName : String) : SetMeta :=
  ⟨String.mk (variantName.toList.takeWhile (fun c => c ≠ Char.ofNat 47)), ""⟩

section Extraction

variable {α : Type} (styleOf : FigmaNode → α)

/-- The standalone `ExtractedComponent` built for a metadata entry with no
`componentSetId` (part_004, lines 807-834). -/
def mkStandalone (nodeMap : List (String × FigmaNode))
    (frameMap : List (String × String)) (nodeId : String) (meta : CompMeta) :
    ExtractedComponent α :=
  let node := lastGet nodeMap nodeId
  { name := meta.name
    description := meta.description
    variants := []
    properties := (node.map mkProps).getD []
    setName := none
    nodeId := nodeId
    styles := node.map styleOf
    group := lastGet frameMap nodeId }

/-- One step of the grouping loop over `Object.entries(componentsMeta)`
(part_004, lines 786-835): skip private names, group variant-set members
into the `setComponents` map (skipping members of private sets), push
standalone components. -/
def groupStep (setsMeta : List (String × SetMeta))
    (nodeMap : List (String × FigmaNode)) (frameMap : List (String × String))
    (acc : List (String × SetData) × List (ExtractedComponent α))
    (e : String × CompMeta) :
    List (String × SetData) × List (ExtractedComponent α) :=
  let nodeId := e.1
  let meta := e.2
  if startsWithDot meta.name then acc
  else
    match meta.componentSetId with
    | some setId =>
      let setMeta := jget setsMeta setId
      if (setMeta.map (fun sm => startsWithDot sm.name)).getD false then acc
      else
        (mapSet acc.1 setId
          (fun d =>
            { d with
              variants := d.variants ++ [meta.name]
              variantNodeIds := d.variantNodeIds ++ [nodeId] })
          ⟨setMeta.getD (fallbackSetMeta meta.name), [meta.name], [nodeId]⟩,
         acc.2)
    | none => (acc.1, acc.2 ++ [mkStandalone styleOf nodeMap frameMap nodeId meta])

/-- Convert one accumulated variant set to its `ExtractedComponent`
(part_004, lines 838-868): private set names are skipped; the
representative `nodeId` is the first variant's node id, falling back to the
set id (`data.variantNodeIds[0] || setId`). -/
def setToComponents (nodeMap : List (String × FigmaNode))
    (frameMap : List (String × String)) (kd : String × SetData) :
    List (ExtractedComponent α) :=
  let setId := kd.1
  let data := kd.2
  if startsWithDot data.meta.name then []
  else
    let node := lastGet nodeMap setId
    [{ name := data.meta.name
       description := data.meta.description
       variants := data.variants
       properties := (node.map mkProps).getD []
       setName := some data.meta.name
       nodeId := data.variantNodeIds.headD setId
       styles := node.map styleOf
       group := lastGet frameMap setId }]

/-- The component list of `extractComponents` before the final sort: the
standalone components in metadata order, followed by one component per
accumulated variant set in set-id first-occurrence order. -/
def buildComponents (doc : FigmaNode) (componentsMeta : List (String × CompMeta))
    (componentSetsMeta : List (String × SetMeta)) : List (ExtractedComponent α) :=
  let nodeMap := buildNodeMap doc
  let frameMap := buildFrameMap doc
  let grouped := componentsMeta.foldl
    (groupStep styleOf componentSetsMeta nodeMap frameMap) ([], [])
  grouped.2 ++ grouped.1.flatMap (setToComponents styleOf nodeMap frameMap)

/-- Source `extractComponents` (part_004, lines 751-874).  The final
`sort((a, b) => a.name.localeCompare(b.name))` is modelled as a stable
merge sort by name under the comparator `lc`, which stands for the
runtime's locale collation `a.localeCompare(b) <= 0`: the collation is
runtime (ICU) data rather than source text, so it is an oracle parameter
of the embedding, like the network oracles. -/
def extractComponents (lc : String → String → Bool) (doc : FigmaNode)
    (componentsMeta : List (String × CompMeta))
    (componentSetsMeta : List (String × SetMeta)) :
    List (ExtractedComponent α) × List String :=
  let pageOrder := doc.children.map FigmaNode.name
  ((buildComponents styleOf doc componentsMeta componentSetsMeta).mergeSort
      (fun a b => lc a.name b.name),
   pageOrder)

/-- Whether the variant set `sid` is filtered as private (part_004, lines
792-793: the set's metadata exists and its name starts with the reserved
private-prefix character). -/
def setIsPrivate (setsMeta : List (String × SetMeta)) (sid : String) : Bool :=
  ((jget setsMeta sid).map (fun sm => startsWithDot sm.name)).getD false

/-- The metadata entries grouped into the variant set `sid`: entries whose
`componentSetId` is `sid`, skipping private component names and skipping
everything when the set itself is private. -/
def setMembers (setsMeta : List (String × SetMeta))
    (componentsMeta : List (String × CompMeta)) (sid : String) :
    List (String × CompMeta) :=
  componentsMeta.filter (fun e =>
    !(startsWithDot e.2.name) && (e.2.componentSetId == some sid) &&
      !(setIsPrivate setsMeta sid))

/-- A metadata entry the extractor must exclude entirely: its own name is
private, or it belongs to a variant set whose name is private. -/
def privateEntry (setsMeta : List (String × SetMeta))
    (e : String × CompMeta) : Prop :=
  startsWithDot e.2.name = true ∨
    ∃ sid, e.2.componentSetId = some sid ∧ setIsPrivate setsMeta sid = true

/-- The standalone components contributed by the metadata entries, in
order: one per non-private entry without a `componentSetId`. -/
def standComponents (nodeMap : List (String × FigmaNode))
    (frameMap : List (String × String)) (L : List (String × CompMeta)) :
    List (ExtractedComponent α) :=
  L.filterMap (fun e =>
    if !(startsWithDot e.2.name) && (e.2.componentSetId == none) then
      some (mkStandalone styleOf nodeMap frameMap e.1 e.2)
    else none)

end Extraction

/-- Lexicographic code-point comparison of character lists: `true` when
the first list orders no later than the second. -/
def lexLE : List Char → List Char → Bool
  | [], _ => true
  | _ :: _, [] => false
  | a :: as, b :: bs =>
    if a.toNat < b.toNat then true
    else if b.toNat < a.toNat then false
    else lexLE as bs

/-- A concrete model of the default-locale `localeCompare` ordering used
by the final sort of `extractComponents` (part_004, line 871): ICU default
collation compares case-insensitively at primary strength, modelled here
as code-point comparison of the lowercased strings.  `localeLE a b` states
`a.localeCompare(b) <= 0`; on the names of the C10 counterexample it
agrees with the observed Node behavior (`"alert".localeCompare("Banner") <
0`). -/
def localeLE (a b : String) : Bool :=
  lexLE (a.toList.map Char.toLower) (b.toList.map Char.toLower)

/-! ## Retry wrapper (part_004, `fetchWithRetry`, lines 1281-1304)

The wrapped async function becomes an oracle `outcomes : ℕ → Outcome E T`
giving the result of each attempt, and errors carry an optional HTTP
status through `statusOf`.  The model returns the final result, the list
of waits performed between attempts (in milliseconds), and the number of
attempts made. -/

/-- The result of one attempt of the wrapped function: a value or a thrown
error. -/
inductive Outcome (E T : Type) : Type where
  | ok (t : T)
  | err (e : E)

/-- What `fetchWithRetry` ends with when it does not return a value: the
re-raised last error, or the unreachable trailing
`new Error('Max retries exceeded')`. -/
inductive RetryFailure (E : Type) : Type where
  | raised (e : E)
  | maxExceeded
deriving DecidableEq

/-- Trace of one `fetchWithRetry` run: the returned value or raised error,
the waits performed between attempts, and how many attempts were made. -/
structure RetryRun (E T : Type) where
  result : Except (RetryFailure E) T
  waits : List ℤ
  attempts : ℕ

/-- The loop of `fetchWithRetry` (part_004, lines 1286-1302) from attempt
index `i` with `remaining = maxRetries - i` iterations left: try the
attempt; on success return; on the last allowed attempt re-raise; on HTTP
429 wait `delay * (i + 1) * 2` and retry; on HTTP status at least 500 wait
`delay * (i + 1)` and retry; on any other error re-raise at once. -/
def retryGo {E T : Type} (statusOf : E → Option ℤ) (outcomes : ℕ → Outcome E T)
    (maxRetries : ℕ) (delay : ℤ) : ℕ → ℕ → RetryRun E T
  | _, 0 => ⟨Except.error RetryFailure.maxExceeded, [], 0⟩
  | i, remaining + 1 =>
    match outcomes i with
    | Outcome.ok t => ⟨Except.ok t, [], 1⟩
    | Outcome.err e =>
      if i = maxRetries - 1 then ⟨Except.error (RetryFailure.raised e), [], 1⟩
      else if statusOf e = some 429 then
        let rest := retryGo statusOf outcomes maxRetries delay (i + 1) remaining
        ⟨rest.result, delay * (i + 1) * 2 :: rest.waits, rest.attempts + 1⟩
      else
        match statusOf e with
        | some s =>
          if 500 ≤ s then
            let rest := retryGo statusOf outcomes maxRetries delay (i + 1) remaining
            ⟨rest.result, delay * (i + 1) :: rest.waits, rest.attempts + 1⟩
          else ⟨Except.error (RetryFailure.raised e), [], 1⟩
        | none => ⟨Except.error (RetryFailure.raised e), [], 1⟩

/-- Source `fetchWithRetry` (part_004, lines 1281-1304) with its default
`maxRetries = 3` kept as an explicit argument. -/
def fetchWithRetry {E T : Type} (statusOf : E → Option ℤ)
    (outcomes : ℕ → Outcome E T) (maxRetries : ℕ) (delay : ℤ) : RetryRun E T :=
  retryGo statusOf outcomes maxRetries delay 0 maxRetries

/-- An error the wrapper retries after: HTTP 429, or an HTTP status of at
least 500. -/
def retryable {E : Type} (statusOf : E → Option ℤ) (e : E) : Prop :=
  statusOf e = some 429 ∨ ∃ s, statusOf e = some s ∧ 500 ≤ s

/-- Attempt `j` fails with a retryable error. -/
def retryFails {E T : Type} (statusOf : E → Option ℤ)
    (outcomes : ℕ → Outcome E T) (j : ℕ) : Prop :=
  ∃ e, outcomes j = Outcome.err e ∧ retryable statusOf e

/-- The waits performed before attempt `i` is reached, assuming the first
`i` attempts failed with retryable errors: `delay * (j + 1) * 2` after an
HTTP 429 failure of attempt `j`, else `delay * (j + 1)`. -/
def waitsUpTo {E T : Type} (statusOf : E → Option ℤ)
    (outcomes : ℕ → Outcome E T) (delay : ℤ) (i : ℕ) : List ℤ :=
  (List.range i).map (fun j =>
    match outcomes j with
    | Outcome.err e =>
      if statusOf e = some 429 then delay * (j + 1) * 2 else delay * (j + 1)
    | Outcome.ok _ => 0)

/-! ## Asset exporter (part_004, `exportComponentImages`, lines 554-595)

The export-URL request for a batch and the per-URL downloads become
oracles.  Within a batch the downloads are joined before the next batch
starts; each successful download records one entry keyed by the component
name, modelled as an appended association pair. -/

/-- Source `comp.name.replace(/[^a-z0-9]/gi, '-').toLowerCase()` (part_004, line
579): every non-alphanumeric character becomes a dash, letters are
lower-cased. -/
def sanitizeName (s : String) : String :=
  String.mk (s.toList.map (fun c => if c.isAlphanum then c.toLower else '-'))

/-- Process one batch (part_004, lines 570-591): a whole-batch export
failure is caught and contributes nothing; otherwise each component whose
node id received a URL and whose download succeeds adds one
`name ↦ components/<sanitized>.png` entry. -/
def exportBatch {α : Type}
    (exportUrls : List String → Except Unit (List (String × String)))
    (downloadOk : String → Bool) (acc : List (String × String))
    (batch : List (ExtractedComponent α)) : List (String × String) :=
  match exportUrls (batch.map (fun c => c.nodeId)) with
  | Except.error _ => acc
  | Except.ok urls =>
    acc ++ batch.filterMap (fun comp =>
      match jget urls comp.nodeId with
      | none => none
      | some url =>
        if downloadOk url then
          some (comp.name, "components/" ++ sanitizeName comp.name ++ ".png")
        else none)

/-- Fixed-size batches of 50 (part_004, lines 564-567: the loop slices the
list in steps of `batchSize = 50`). -/
def chunks50 {β : Type} : List β → List (List β)
  | [] => []
  | x :: xs => (x :: xs).take 50 :: chunks50 ((x :: xs).drop 50)
  termination_by l => l.length
  decreasing_by simp [List.length_drop]; omega

/-- Source `exportComponentImages` (part_004, lines 554-595): filter out icons,
export in batches of 50, accumulate the name-to-path map. -/
def exportComponentImages {α : Type} (isIcon : ExtractedComponent α → Bool)
    (exportUrls : List String → Except Unit (List (String × String)))
    (downloadOk : String → Bool) (components : List (ExtractedComponent α)) :
    List (String × String) :=
  let uiComponents := components.filter (fun c => !(isIcon c))
  (chunks50 uiComponents).foldl (exportBatch exportUrls downloadOk) []

/-- The entries contributed by one batch: nothing when the whole-batch
request fails, otherwise one entry per component with a returned URL and a
successful download. -/
def batchEntries {α : Type}
    (exportUrls : List String → Except Unit (List (String × String)))
    (downloadOk : String → Bool) (batch : List (ExtractedComponent α)) :
    List (String × String) :=
  match exportUrls (batch.map (fun c => c.nodeId)) with
  | Except.error _ => []
  | Except.ok urls =>
    batch.filterMap (fun comp =>
      match jget urls comp.nodeId with
      | none => none
      | some url =>
        if downloadOk url then
          some (comp.name, "components/" ++ sanitizeName comp.name ++ ".png")
        else none)

/-! ## Color math (part_003)

JS numbers are modelled as real numbers.  A hex color string is
represented by its parsed channel triple `RGB` (natural numbers, 0..255
for canonical 6-digit strings), so that the source composition
`hexToRgb ∘ rgbToHex` collapses to the clamp-and-round step performed by
`rgbToHex`. -/

/-- A parsed hex color: the three channels produced by `hexToRgb`
(part_003, lines 1-6). -/
structure RGB where
  r : ℕ
  g : ℕ
  b : ℕ
deriving DecidableEq

/-- The white reference `'#FFFFFF'` used for the button contrast check. -/
def white : RGB := ⟨255, 255, 255⟩

/-- JS `Math.round`: round half toward positive infinity. -/
noncomputable def jsRound (x : ℝ) : ℤ := ⌊x + 1 / 2⌋

/-- One channel of `rgbToHex` (part_003, lines 8-12):
`Math.max(0, Math.min(255, Math.round(v)))`. -/
noncomputable def clamp255 (x : ℝ) : ℕ := (max 0 (min 255 (jsRound x))).toNat

/-- A real-valued channel triple, as produced by `hslToRgb` before the
clamp of `rgbToHex`. -/
structure RGBr where
  r : ℝ
  g : ℝ
  b : ℝ

/-- Source `rgbToHex` (part_003, lines 8-12) under the parsed-hex representation:
round and clamp each channel into 0..255. -/
noncomputable def rgbToHex (c : RGBr) : RGB :=
  ⟨clamp255 c.r, clamp255 c.g, clamp255 c.b⟩

/-- An HSL triple: hue in degrees, saturation and lightness in 0..1. -/
structure HSL where
  h : ℝ
  s : ℝ
  l : ℝ

/-- Source `rgbToHsl` (part_003, lines 14-32), with the JS `switch (max)` on
strict equality modelled by the matching if-chain (case `r` first, then
`g`, then `b`). -/
noncomputable def rgbToHsl (c : RGB) : HSL :=
  let r : ℝ := (c.r : ℝ) / 255
  let g : ℝ := (c.g : ℝ) / 255
  let b : ℝ := (c.b : ℝ) / 255
  let mx := max r (max g b)
  let mn := min r (min g b)
  let l := (mx + mn) / 2
  if mx = mn then ⟨0, 0, l⟩
  else
    let d := mx - mn
    let s := if 1 / 2 < l then d / (2 - mx - mn) else d / (mx + mn)
    let h :=
      if mx = r then ((g - b) / d + (if g < b then 6 else 0)) / 6
      else if mx = g then ((b - r) / d + 2) / 6
      else ((r - g) / d + 4) / 6
    ⟨h * 360, s, l⟩

/-- The `hue2rgb` helper of `hslToRgb` (part_003, lines 40-47). -/
noncomputable def hue2rgb (p q t : ℝ) : ℝ :=
  let t1 := if t < 0 then t + 1 else t
  let t2 := if 1 < t1 then t1 - 1 else t1
  if t2 < 1 / 6 then p + (q - p) * 6 * t2
  else if t2 < 1 / 2 then q
  else if t2 < 2 / 3 then p + (q - p) * (2 / 3 - t2) * 6
  else p

/-- Source `hslToRgb` (part_003, lines 34-59): each returned channel is already
`Math.round(v * 255)`. -/
noncomputable def hslToRgb (c : HSL) : RGBr :=
  let h := c.h / 360
  if c.s = 0 then
    ⟨(jsRound (c.l * 255) : ℤ), (jsRound (c.l * 255) : ℤ), (jsRound (c.l * 255) : ℤ)⟩
  else
    let q := if c.l < 1 / 2 then c.l * (1 + c.s) else c.l + c.s - c.l * c.s
    let p := 2 * c.l - q
    ⟨(jsRound (hue2rgb p q (h + 1 / 3) * 255) : ℤ),
     (jsRound (hue2rgb p q h * 255) : ℤ),
     (jsRound (hue2rgb p q (h - 1 / 3) * 255) : ℤ)⟩

/-- Source `luminance` (part_003, lines 61-64): perceptual luminance,
`(0.299 r + 0.587 g + 0.114 b) / 255`. -/
noncomputable def luminance (c : RGB) : ℝ :=
  (0.299 * (c.r : ℝ) + 0.587 * (c.g : ℝ) + 0.114 * (c.b : ℝ)) / 255

/-- The per-channel linearization inside `wcagLuminance` (part_003, lines
68-71). -/
noncomputable def srgbLin (c : ℝ) : ℝ :=
  if c ≤ 0.04045 then c / 12.92 else ((c + 0.055) / 1.055) ^ (2.4 : ℝ)

/-- Source `wcagLuminance` (part_003, lines 66-73). -/
noncomputable def wcagLuminance (c : RGB) : ℝ :=
  0.2126 * srgbLin ((c.r : ℝ) / 255) + 0.7152 * srgbLin ((c.g : ℝ) / 255) +
    0.0722 * srgbLin ((c.b : ℝ) / 255)

/-- Source `contrastRatio` (part_003, lines 75-81). -/
noncomputable def contrastRatio (a b : RGB) : ℝ :=
  let l1 := wcagLuminance a
  let l2 := wcagLuminance b
  (max l1 l2 + 0.05) / (min l1 l2 + 0.05)

/-- Source `saturation` (part_003, lines 83-89). -/
noncomputable def saturation (c : RGB) : ℝ :=
  let mx := (max c.r (max c.g c.b) : ℝ) / 255
  let mn := (min c.r (min c.g c.b) : ℝ) / 255
  if mx = 0 then 0 else (mx - mn) / mx

/-- Source `lighten` (part_003, lines 91-97): add `amount` to each channel, then
round and clamp into 0..255. -/
noncomputable def lighten (c : RGB) (amount : ℝ) : RGB :=
  ⟨clamp255 ((c.r : ℝ) + amount), clamp255 ((c.g : ℝ) + amount),
   clamp255 ((c.b : ℝ) + amount)⟩

/-! ## Contrast adjuster (part_003, `adjustBrandForContrast`, lines 99-156) -/

/-- The mutable state of the lightness binary search: the bounds, the best
valid candidate so far and its score (`-Infinity` when none has been
recorded yet, modelled as the bottom of `EReal`). -/
structure SearchState where
  lo : ℝ
  hi : ℝ
  bestHex : RGB
  bestScore : EReal

/-- One iteration of the binary search (part_003, lines 122-153). -/
noncomputable def searchStep (hsl : HSL) (bg : RGB) (mt mb : ℝ)
    (bgIsLight : Bool) (st : SearchState) : SearchState :=
  let mid := (st.lo + st.hi) / 2
  let candidate := rgbToHex (hslToRgb ⟨hsl.h, hsl.s, mid⟩)
  let textC := contrastRatio candidate bg
  let btnC := contrastRatio candidate white
  let st1 :=
    if mt ≤ textC ∧ mb ≤ btnC then
      let score : EReal := ((-|mid - hsl.l| : ℝ) : EReal)
      if st.bestScore < score then
        { st with bestHex := candidate, bestScore := score }
      else st
    else st
  if textC < mt then
    if bgIsLight then { st1 with hi := mid } else { st1 with lo := mid }
  else if btnC < mb then { st1 with hi := mid }
  else if mid < hsl.l then { st1 with lo := mid }
  else { st1 with hi := mid }

/-- Source `adjustBrandForContrast` (part_003, lines 99-156): short-circuit when
the seed already satisfies both constraints, otherwise run 30 binary-search
iterations from `lo = 0, hi = 1` with the seed as initial best. -/
noncomputable def adjustBrandForContrast (brand bg : RGB) (mt mb : ℝ) : RGB :=
  if mt ≤ contrastRatio brand bg ∧ mb ≤ contrastRatio brand white then brand
  else
    let hsl := rgbToHsl brand
    let bgIsLight : Bool := decide ((1 : ℝ) / 2 < wcagLuminance bg)
    ((searchStep hsl bg mt mb bgIsLight)^[30] ⟨0, 1, brand, ⊥⟩).bestHex

/-- The midpoints tried by `n` iterations of the binary search from a given
state, paired with the candidate color built at each midpoint.  This is the
observable sequence of candidates of the loop at part_003, lines 122-153. -/
noncomputable def searchTrace (hsl : HSL) (bg : RGB) (mt mb : ℝ)
    (bgIsLight : Bool) : ℕ → SearchState → List (ℝ × RGB)
  | 0, _ => []
  | n + 1, st =>
    let mid := (st.lo + st.hi) / 2
    (mid, rgbToHex (hslToRgb ⟨hsl.h, hsl.s, mid⟩)) ::
      searchTrace hsl bg mt mb bgIsLight n (searchStep hsl bg mt mb bgIsLight st)

/-- The midpoint/candidate pair recorded by one iteration of the binary
search entered in state `st` (part_003, lines 123-124). -/
noncomputable def searchEntry (hsl : HSL) (st : SearchState) : ℝ × RGB :=
  ((st.lo + st.hi) / 2,
    rgbToHex (hslToRgb ⟨hsl.h, hsl.s, (st.lo + st.hi) / 2⟩))

/-- The acceptance test of the binary search (part_003, line 128): the
candidate meets the text-contrast threshold against the background and the
button-contrast threshold against white. -/
def feasible (bg : RGB) (mt mb : ℝ) (c : RGB) : Prop :=
  mt ≤ contrastRatio c bg ∧ mb ≤ contrastRatio c white

/-- The midpoint/candidate sequence tried by one `adjustBrandForContrast`
call that enters the binary search: 30 iterations from `lo = 0, hi = 1`. -/
noncomputable def adjustTrace (brand bg : RGB) (mt mb : ℝ) : List (ℝ × RGB) :=
  searchTrace (rgbToHsl brand) bg mt mb
    (decide ((1 : ℝ) / 2 < wcagLuminance bg)) 30 ⟨0, 1, brand, ⊥⟩

/-- The 4-color brand ramp produced by `brandColors` (part_003, lines
158-167). -/
structure BrandRamp where
  brand1 : RGB
  brand2 : RGB
  brand3 : RGB
  brandSoft : RGB
deriving DecidableEq

/-- Source `brandColors` (part_003, lines 158-167).  The translucent `brandSoft`
is `rgba(brand1, 0.14)`; its color part is the `brand1` triple and the
alpha is the fixed constant 0.14. -/
noncomputable def brandColors (hex : RGB) (bgHex : Option RGB) : BrandRamp :=
  let adjusted :=
    match bgHex with
    | some bg => adjustBrandForContrast hex bg (4.5 : ℝ) (3.0 : ℝ)
    | none => hex
  ⟨adjusted, lighten adjusted (-20), lighten adjusted (-40), adjusted⟩

/-! ## Theme derivation (part_002, `deriveTheme`, lines 402-503)

`deriveTheme` receives the raw palette as a JS object keyed by hex color
strings; the model receives the key list (`Object.keys`, distinct by
construction).  Here the string layer matters — the validity regex
`^#[0-9a-fA-F]{6}$` inspects the string — so hex strings are parsed
explicitly. -/

/-- A character matched by the JS character class `[0-9a-fA-F]`. -/
def isHexDigitChar (c : Char) : Bool :=
  c.isDigit || (decide (Char.ofNat 97 ≤ c) && decide (c ≤ Char.ofNat 102)) ||
    (decide (Char.ofNat 65 ≤ c) && decide (c ≤ Char.ofNat 70))

/-- The validity test `^#[0-9a-fA-F]{6}$` (part_002, lines 437 and 462). -/
def isHex6 (s : String) : Bool :=
  match s.toList with
  | c :: rest => c = Char.ofNat 35 && rest.length == 6 && rest.all isHexDigitChar
  | [] => false

/-- Value of one hex digit character. -/
def hexVal (c : Char) : ℕ :=
  if c.isDigit then c.toNat - 48
  else if Char.ofNat 97 ≤ c then c.toNat - 87
  else c.toNat - 55

/-- Model of the JS string replace step of `hexToRgb`: remove the first
occurrence of the hash character (a string-pattern replace in JS replaces
only the first match). -/
def stripFirstHash : List Char → List Char
  | [] => []
  | c :: rest => if c = Char.ofNat 35 then rest else c :: stripFirstHash rest

/-- Source `hexToRgb` (part_003, lines 1-6) on an actual string: strip the hash,
double the digits of a 3-digit form, parse the longest hex-digit prefix
(`parseInt(hex, 16)`; an empty prefix gives `NaN`, whose JS right-shifts
yield 0, matching the fold over an empty list), split into channels. -/
def hexToRgbStr (s : String) : RGB :=
  let t := stripFirstHash s.toList
  let t2 :=
    match t with
    | [a, b, c] => [a, a, b, b, c, c]
    | _ => t
  let n := (t2.takeWhile isHexDigitChar).foldl (fun acc c => 16 * acc + hexVal c) 0
  ⟨n / 65536 % 256, n / 256 % 256, n % 256⟩

/-- Source `luminance` applied to a hex string (part_002 uses the string-level
function from part_003). -/
noncomputable def lumStr (s : String) : ℝ := luminance (hexToRgbStr s)

/-- Source `saturation` applied to a hex string. -/
noncomputable def satStr (s : String) : ℝ := saturation (hexToRgbStr s)

/-- The theme record produced by `deriveTheme` (part_002, lines 408-431 and
478-502), every color field as a parsed channel triple; the two
`...Soft` fields are `rgba(c, 0.14)` values represented by their color
part. -/
structure Theme where
  bg : RGB
  bgSurface : RGB
  bgElevated : RGB
  bgMute : RGB
  bgSoft : RGB
  textPrimary : RGB
  textSecondary : RGB
  textMuted : RGB
  accent : RGB
  accentDark : RGB
  border : RGB
  success : RGB
  vpBrand1 : RGB
  vpBrand2 : RGB
  vpBrand3 : RGB
  vpBrandSoft : RGB
  vpBrand1Light : RGB
  vpBrand2Light : RGB
  vpBrand3Light : RGB
  vpBrandSoftLight : RGB
  accentLight : RGB
  accentDarkLight : RGB
deriving DecidableEq

/-- The documented constant fallback theme (part_002, lines 406-431).  It
depends on nothing: `fallbackLightBrand` is `brandColors` of the fixed
accent `'#d0bcfe'` against white. -/
noncomputable def fallbackTheme : Theme :=
  let fallbackLightBrand := brandColors ⟨0xd0, 0xbc, 0xfe⟩ (some white)
  { bg := ⟨0x14, 0x12, 0x18⟩
    bgSurface := ⟨0x1d, 0x1b, 0x20⟩
    bgElevated := ⟨0x23, 0x20, 0x28⟩
    bgMute := ⟨0x2b, 0x29, 0x30⟩
    bgSoft := ⟨0x21, 0x1f, 0x26⟩
    textPrimary := ⟨0xe6, 0xe0, 0xe9⟩
    textSecondary := ⟨0xca, 0xc4, 0xd0⟩
    textMuted := ⟨0x93, 0x8f, 0x99⟩
    accent := ⟨0xd0, 0xbc, 0xfe⟩
    accentDark := ⟨0x38, 0x1e, 0x72⟩
    border := ⟨0x49, 0x45, 0x4f⟩
    success := ⟨0xa8, 0xdb, 0x8f⟩
    vpBrand1 := ⟨0xd0, 0xbc, 0xfe⟩
    vpBrand2 := ⟨0xb6, 0x9d, 0xf8⟩
    vpBrand3 := ⟨0x9a, 0x82, 0xdb⟩
    vpBrandSoft := ⟨208, 188, 254⟩
    vpBrand1Light := fallbackLightBrand.brand1
    vpBrand2Light := fallbackLightBrand.brand2
    vpBrand3Light := fallbackLightBrand.brand3
    vpBrandSoftLight := fallbackLightBrand.brandSoft
    accentLight := fallbackLightBrand.brand1
    accentDarkLight := fallbackLightBrand.brand3 }

/-- Source `deriveTheme` (part_002, lines 402-503).  `rawColorKeys` is
`Object.keys(tokens.colors || {})`; `brandColor` the optional user seed.
The JS `sort((a, b) => luminance(a) - luminance(b))` is modelled as a
stable merge sort on perceptual luminance, and the `slice` bounds
`Math.floor(n * 0.2)`, `Math.ceil(n * 0.8)` as exact natural arithmetic. -/
noncomputable def deriveTheme (rawColorKeys : List String)
    (brandColor : Option String) : Theme :=
  let hexes := rawColorKeys
  if hexes.length < 3 then fallbackTheme
  else
    let sorted := (hexes.filter isHex6).mergeSort
      (fun a b => decide (lumStr a ≤ lumStr b))
    if sorted.length < 3 then fallbackTheme
    else
      let darkest := sorted.headD ""
      let lightest := sorted.getLastD ""
      let lo20 := sorted.length * 2 / 10
      let hi80 := (sorted.length * 8 + 9) / 10
      let midRange := (sorted.drop lo20).take (hi80 - lo20)
      let pick := midRange.foldl
        (fun acc h => if acc.1 < satStr h then (satStr h, h) else acc)
        ((0 : ℝ), "#d0bcfe")
      let accent0 := if pick.1 < 0.1 then "#d0bcfe" else pick.2
      let rawAccent :=
        match brandColor with
        | some bc => if isHex6 bc then bc else accent0
        | none => accent0
      let accent := adjustBrandForContrast (hexToRgbStr rawAccent)
        (hexToRgbStr darkest) (4.5 : ℝ) (3.0 : ℝ)
      let lightBrand := brandColors (hexToRgbStr rawAccent) (some white)
      let darkRgb := hexToRgbStr darkest
      { bg := darkRgb
        bgSurface := lighten darkRgb 10
        bgElevated := lighten darkRgb 18
        bgMute := lighten darkRgb 26
        bgSoft := lighten darkRgb 8
        textPrimary := hexToRgbStr lightest
        textSecondary :=
          if 0.7 < lumStr lightest then lighten (hexToRgbStr lightest) (-30)
          else hexToRgbStr lightest
        textMuted :=
          if 0.5 < lumStr lightest then lighten (hexToRgbStr lightest) (-70)
          else ⟨0x93, 0x8f, 0x99⟩
        accent := accent
        accentDark := lighten accent (-60)
        border := lighten darkRgb 40
        success := ⟨0xa8, 0xdb, 0x8f⟩
        vpBrand1 := accent
        vpBrand2 := lighten accent (-20)
        vpBrand3 := lighten accent (-40)
        vpBrandSoft := accent
        vpBrand1Light := lightBrand.brand1
        vpBrand2Light := lightBrand.brand2
        vpBrand3Light := lightBrand.brand3
        vpBrandSoftLight := lightBrand.brandSoft
        accentLight := lightBrand.brand1
        accentDarkLight := lightBrand.brand3 }

/-! # Theorems -/

/-! ## Retry wrapper (claim C6) -/

theorem retryGo_attempts_le {E T : Type} (statusOf : E → Option ℤ)
    (outcomes : ℕ → Outcome E T) (maxRetries : ℕ) (delay : ℤ) :
    ∀ r i, (retryGo statusOf outcomes maxRetries delay i r).attempts ≤ r := by
  intro r
  induction r with
  | zero => intro i; simp [retryGo]
  | succ r ih =>
    intro i
    rw [retryGo]
    cases houtcome : outcomes i with
    | ok t => simp
    | err e =>
      dsimp only
      by_cases h1 : i = maxRetries - 1
      · simp [h1]
      · rw [if_neg h1]
        by_cases h2 : statusOf e = some 429
        · rw [if_pos h2]
          have := ih (i + 1)
          simpa using Nat.succ_le_succ this
        · rw [if_neg h2]
          cases hstatus : statusOf e with
          | none => simp
          | some s =>
            dsimp only
            by_cases h3 : (500 : ℤ) ≤ s
            · rw [if_pos h3]
              have := ih (i + 1)
              simpa using Nat.succ_le_succ this
            · rw [if_neg h3]; simp

theorem retryGo_ok {E T : Type} {statusOf : E → Option ℤ}
    {outcomes : ℕ → Outcome E T} {maxRetries : ℕ} {delay : ℤ} {i r : ℕ}
    {t : T} (h : outcomes i = Outcome.ok t) :
    retryGo statusOf outcomes maxRetries delay i (r + 1) =
      ⟨Except.ok t, [], 1⟩ := by
  rw [retryGo, h]

theorem retryGo_stop_err {E T : Type} {statusOf : E → Option ℤ}
    {outcomes : ℕ → Outcome E T} {maxRetries : ℕ} {delay : ℤ} {i r : ℕ}
    {e : E} (h : outcomes i = Outcome.err e)
    (hstop : i = maxRetries - 1 ∨ ¬ retryable statusOf e) :
    retryGo statusOf outcomes maxRetries delay i (r + 1) =
      ⟨Except.error (RetryFailure.raised e), [], 1⟩ := by
  rw [retryGo, h]
  dsimp only
  rcases hstop with hlast | hnr
  · rw [if_pos hlast]
  · by_cases hlast : i = maxRetries - 1
    · rw [if_pos hlast]
    · rw [if_neg hlast]
      rw [retryable] at hnr
      push_neg at hnr
      rw [if_neg hnr.1]
      cases hstatus : statusOf e with
      | none => rfl
      | some s =>
        dsimp only
        have := hnr.2 s hstatus
        rw [if_neg (by omega)]

theorem retryGo_retry_err {E T : Type} {statusOf : E → Option ℤ}
    {outcomes : ℕ → Outcome E T} {maxRetries : ℕ} {delay : ℤ} {i r : ℕ}
    {e : E} (h : outcomes i = Outcome.err e) (hr : retryable statusOf e)
    (hnotlast : i ≠ maxRetries - 1) :
    retryGo statusOf outcomes maxRetries delay i (r + 1) =
      ⟨(retryGo statusOf outcomes maxRetries delay (i + 1) r).result,
        (if statusOf e = some 429 then delay * (i + 1) * 2 else delay * (i + 1)) ::
          (retryGo statusOf outcomes maxRetries delay (i + 1) r).waits,
        (retryGo statusOf outcomes maxRetries delay (i + 1) r).attempts + 1⟩ := by
  rw [retryGo, h]
  dsimp only
  rw [if_neg hnotlast]
  rcases hr with h429 | ⟨s, hs, h500⟩
  · rw [if_pos h429, if_pos h429]
  · have hne : statusOf e ≠ some 429 := by
      rw [hs]; intro hcontra
      have : s = 429 := by injection hcontra
      omega
    rw [if_neg hne, if_neg hne, hs]
    dsimp only
    rw [if_pos h500]

/-- Claim C6: every call routed through the shared retry wrapper makes at
most 3 attempts; when every attempt before attempt `i` failed with a
retryable error, a success at attempt `i` returns its value, a failure at
the last attempt or with a non-retryable error re-raises that error at
once, and the waits performed so far are `delay * (j + 1) * 2` after an
HTTP 429 failure of attempt `j` and `delay * (j + 1)` after an HTTP 5xx
failure. -/
theorem fetchWithRetry_spec {E T : Type} (statusOf : E → Option ℤ)
    (outcomes : ℕ → Outcome E T) (delay : ℤ) :
    (fetchWithRetry statusOf outcomes 3 delay).attempts ≤ 3 ∧
    ∀ i, i < 3 → (∀ j, j < i → retryFails statusOf outcomes j) →
      (∀ t, outcomes i = Outcome.ok t →
        fetchWithRetry statusOf outcomes 3 delay =
          ⟨Except.ok t, waitsUpTo statusOf outcomes delay i, i + 1⟩) ∧
      (∀ e, outcomes i = Outcome.err e → (i = 2 ∨ ¬ retryable statusOf e) →
        fetchWithRetry statusOf outcomes 3 delay =
          ⟨Except.error (RetryFailure.raised e),
            waitsUpTo statusOf outcomes delay i, i + 1⟩) := by
  constructor
  · exact retryGo_attempts_le statusOf outcomes 3 delay 3 0
  intro i hi hprev
  have wait0 : waitsUpTo statusOf outcomes delay 0 = [] := by
    simp [waitsUpTo]
  interval_cases i
  · constructor
    · intro t ht
      rw [fetchWithRetry, retryGo_ok ht, wait0]
    · intro e he hstop
      have hstop2 : (0 : ℕ) = 3 - 1 ∨ ¬ retryable statusOf e := by
        rcases hstop with h | h
        · omega
        · exact Or.inr h
      rw [fetchWithRetry, retryGo_stop_err he hstop2, wait0]
  · obtain ⟨e0, he0, hr0⟩ := hprev 0 (by omega)
    have step0 := @retryGo_retry_err E T statusOf outcomes 3 delay 0 2
      e0 he0 hr0 (by omega)
    have wait1 : waitsUpTo statusOf outcomes delay 1 =
        [if statusOf e0 = some 429 then delay * 1 * 2 else delay * 1] := by
      simp [waitsUpTo, List.range_succ, he0]
    constructor
    · intro t ht
      rw [fetchWithRetry, step0, retryGo_ok ht, wait1]
      simp
    · intro e he hstop
      have hstop2 : (1 : ℕ) = 3 - 1 ∨ ¬ retryable statusOf e := by
        rcases hstop with h | h
        · omega
        · exact Or.inr h
      rw [fetchWithRetry, step0, retryGo_stop_err he hstop2, wait1]
      simp
  · obtain ⟨e0, he0, hr0⟩ := hprev 0 (by omega)
    obtain ⟨e1, he1, hr1⟩ := hprev 1 (by omega)
    have step0 := @retryGo_retry_err E T statusOf outcomes 3 delay 0 2
      e0 he0 hr0 (by omega)
    have step1 := @retryGo_retry_err E T statusOf outcomes 3 delay 1 1
      e1 he1 hr1 (by omega)
    have wait2 : waitsUpTo statusOf outcomes delay 2 =
        [if statusOf e0 = some 429 then delay * 1 * 2 else delay * 1,
         if statusOf e1 = some 429 then delay * 2 * 2 else delay * 2] := by
      simp [waitsUpTo, List.range_succ, he0, he1]
    constructor
    · intro t ht
      rw [fetchWithRetry, step0, step1, retryGo_ok ht, wait2]
      simp
    · intro e he _
      rw [fetchWithRetry, step0, step1,
        retryGo_stop_err he (Or.inl (by omega)), wait2]
      simp

/-- Witness for C6: a 429 failure, then a 503 failure, then a success
returns the success after waits of 2000 ms and 2000 ms, using 3 attempts
(base delay 1000 ms). -/
theorem fetchWithRetry_spec_witness :
    fetchWithRetry (fun s => some s)
      (fun i => if i = 0 then Outcome.err (429 : ℤ)
        else if i = 1 then Outcome.err 503 else Outcome.ok (7 : ℕ))
      3 1000 =
      ⟨Except.ok 7, [2000, 2000], 3⟩ := by
  have h := (fetchWithRetry_spec (fun s => some s)
      (fun i => if i = 0 then Outcome.err (429 : ℤ)
        else if i = 1 then Outcome.err 503 else Outcome.ok (7 : ℕ))
      1000).2 2 (by omega)
      (by
        intro j hj
        interval_cases j
        · exact ⟨429, rfl, Or.inl rfl⟩
        · exact ⟨503, rfl, Or.inr ⟨503, rfl, by omega⟩⟩)
  have h2 := h.1 7 rfl
  rw [h2]
  have : waitsUpTo (E := ℤ) (fun s => some s)
      (fun i => if i = 0 then Outcome.err (429 : ℤ)
        else if i = 1 then Outcome.err 503 else Outcome.ok (7 : ℕ))
      1000 2 = [2000, 2000] := by
    simp [waitsUpTo, List.range_succ]
  rw [this]

/-! ## Asset exporter (claim C7) -/

theorem exportBatch_eq {α : Type}
    (exportUrls : List String → Except Unit (List (String × String)))
    (downloadOk : String → Bool) (acc : List (String × String))
    (batch : List (ExtractedComponent α)) :
    exportBatch exportUrls downloadOk acc batch =
      acc ++ batchEntries exportUrls downloadOk batch := by
  rw [exportBatch, batchEntries]
  cases exportUrls (batch.map (fun c => c.nodeId)) with
  | error e => simp
  | ok urls => rfl

theorem foldl_exportBatch {α : Type}
    (exportUrls : List String → Except Unit (List (String × String)))
    (downloadOk : String → Bool) :
    ∀ (bs : List (List (ExtractedComponent α))) (acc : List (String × String)),
      bs.foldl (exportBatch exportUrls downloadOk) acc =
        acc ++ bs.flatMap (batchEntries exportUrls downloadOk) := by
  intro bs
  induction bs with
  | nil => intro acc; simp
  | cons b bs ih =>
    intro acc
    rw [List.foldl_cons, ih, exportBatch_eq, List.flatMap_cons, List.append_assoc]

theorem exportComponentImages_eq {α : Type}
    (isIcon : ExtractedComponent α → Bool)
    (exportUrls : List String → Except Unit (List (String × String)))
    (downloadOk : String → Bool) (components : List (ExtractedComponent α)) :
    exportComponentImages isIcon exportUrls downloadOk components =
      (chunks50 (components.filter (fun c => !(isIcon c)))).flatMap
        (batchEntries exportUrls downloadOk) := by
  rw [exportComponentImages, foldl_exportBatch]
  rfl

theorem chunks50_flatten {β : Type} : ∀ l : List β, (chunks50 l).flatten = l := by
  have key : ∀ (n : ℕ) (l : List β), l.length ≤ n → (chunks50 l).flatten = l := by
    intro n
    induction n with
    | zero =>
      intro l hl
      have : l = [] := List.length_eq_zero.1 (Nat.le_zero.1 hl)
      subst this
      simp [chunks50]
    | succ n ih =>
      intro l hl
      cases l with
      | nil => simp [chunks50]
      | cons x xs =>
        rw [chunks50, List.flatten_cons, ih ((x :: xs).drop 50)
          (by simp at hl ⊢; omega), List.take_append_drop]
  exact fun l => key l.length l le_rfl

theorem jget_cons {β : Type} (a : String) (v : β) (m : List (String × β))
    (k : String) :
    jget ((a, v) :: m) k = if a == k then some v else jget m k := by
  cases h : a == k with
  | true => simp [jget, List.find?, h]
  | false => simp [jget, List.find?, h]

theorem jget_filterMap_urls (urlOf : String → Option String) :
    ∀ (ids : List String) (k : String),
      jget (ids.filterMap (fun id => (urlOf id).map (fun u => (id, u)))) k =
        if k ∈ ids then urlOf k else none := by
  intro ids
  induction ids with
  | nil => intro k; simp [jget]
  | cons i ids ih =>
    intro k
    rw [List.filterMap_cons]
    cases hu : urlOf i with
    | none =>
      simp only [Option.map_none']
      rw [ih k]
      by_cases hk : k = i
      · subst hk; simp [hu]
      · simp [hk]
    | some u =>
      simp only [Option.map_some']
      rw [jget_cons, ih k]
      by_cases hk : k = i
      · subst hk; simp [hu]
      · have hne : (i == k) = false := by
          simp only [beq_eq_false_iff_ne, ne_eq]
          exact fun h => hk h.symm
        simp [hne, hk]

theorem batchEntries_all_but_one {α : Type}
    (exportUrls : List String → Except Unit (List (String × String)))
    (downloadOk : String → Bool) (urlOf : String → Option String)
    (badId : String)
    (hex : ∀ ids, exportUrls ids =
      Except.ok (ids.filterMap (fun id => (urlOf id).map (fun u => (id, u)))))
    (hbad : ∀ id, urlOf id = none ↔ id = badId)
    (hdl : ∀ u, downloadOk u = true)
    (batch : List (ExtractedComponent α)) :
    (batchEntries exportUrls downloadOk batch).length =
      batch.countP (fun c => !(c.nodeId == badId)) := by
  rw [batchEntries, hex]
  rw [List.length_filterMap_eq_countP]
  apply List.countP_congr
  intro c hc
  have hmem : c.nodeId ∈ batch.map (fun c => c.nodeId) :=
    List.mem_map_of_mem _ hc
  rw [jget_filterMap_urls urlOf _ c.nodeId, if_pos hmem]
  cases hu : urlOf c.nodeId with
  | none =>
    have : c.nodeId = badId := (hbad c.nodeId).1 hu
    simp [this]
  | some u =>
    have : ¬ c.nodeId = badId := by
      intro h
      rw [(hbad c.nodeId).2 h] at hu
      exact Option.noConfusion hu
    simp [hdl u, this]

/-- Claim C7: (a) in a batch run where the export-URL request succeeds for
every batch but returns no URL for exactly one of the node ids, and every
download succeeds, the output map has exactly N - 1 entries (and the run
returns normally); (b) every output entry comes from a batch whose export
request succeeded — a failed batch contributes nothing; (c) a component of
a successful batch whose URL is present and whose download succeeds always
reaches the output map, even if another batch failed. -/
theorem exportComponentImages_spec {α : Type}
    (isIcon : ExtractedComponent α → Bool)
    (exportUrls : List String → Except Unit (List (String × String)))
    (downloadOk : String → Bool) (components : List (ExtractedComponent α)) :
    (∀ (urlOf : String → Option String) (badId : String),
      (∀ c ∈ components, isIcon c = false) →
      (∀ ids, exportUrls ids =
        Except.ok (ids.filterMap (fun id => (urlOf id).map (fun u => (id, u))))) →
      (∀ id, urlOf id = none ↔ id = badId) →
      (∀ u, downloadOk u = true) →
      components.countP (fun c => c.nodeId == badId) = 1 →
      (exportComponentImages isIcon exportUrls downloadOk components).length =
        components.length - 1) ∧
    (∀ entry ∈ exportComponentImages isIcon exportUrls downloadOk components,
      ∃ b ∈ chunks50 (components.filter (fun c => !(isIcon c))),
        (∃ urls, exportUrls (b.map (fun c => c.nodeId)) = Except.ok urls) ∧
        ∃ c ∈ b, c.name = entry.1) ∧
    (∀ b ∈ chunks50 (components.filter (fun c => !(isIcon c))), ∀ urls,
      exportUrls (b.map (fun c => c.nodeId)) = Except.ok urls →
      ∀ c ∈ b, ∀ u, jget urls c.nodeId = some u → downloadOk u = true →
        (c.name, "components/" ++ sanitizeName c.name ++ ".png") ∈
          exportComponentImages isIcon exportUrls downloadOk components) := by
  refine ⟨?_, ?_, ?_⟩
  · intro urlOf badId hicon hex hbad hdl hone
    have hfilter : components.filter (fun c => !(isIcon c)) = components := by
      rw [List.filter_eq_self]
      intro c hc
      simp [hicon c hc]
    rw [exportComponentImages_eq, hfilter]
    have hlen : ∀ bs : List (List (ExtractedComponent α)),
        (bs.flatMap (batchEntries exportUrls downloadOk)).length =
          bs.flatten.countP (fun c => !(c.nodeId == badId)) := by
      intro bs
      induction bs with
      | nil => simp
      | cons b bs ih =>
        rw [List.flatMap_cons, List.flatten_cons, List.length_append,
          List.countP_append, ih,
          batchEntries_all_but_one exportUrls downloadOk urlOf badId hex hbad hdl]
    rw [hlen, chunks50_flatten]
    have hsplit := List.length_eq_countP_add_countP
      (fun c : ExtractedComponent α => c.nodeId == badId) components
    have hco : components.countP (fun a => decide
        ¬((fun c : ExtractedComponent α => c.nodeId == badId) a = true)) =
        components.countP (fun c => !(c.nodeId == badId)) := by
      apply List.countP_congr
      intro c _
      by_cases h : c.nodeId = badId <;> simp [h]
    rw [hco, hone] at hsplit
    omega
  · intro entry hentry
    rw [exportComponentImages_eq] at hentry
    obtain ⟨b, hb, hbmem⟩ := List.mem_flatMap.1 hentry
    refine ⟨b, hb, ?_, ?_⟩
    · rw [batchEntries] at hbmem
      cases hres : exportUrls (b.map (fun c => c.nodeId)) with
      | error e => rw [hres] at hbmem; simp at hbmem
      | ok urls => exact ⟨urls, rfl⟩
    · rw [batchEntries] at hbmem
      cases hres : exportUrls (b.map (fun c => c.nodeId)) with
      | error e => rw [hres] at hbmem; simp at hbmem
      | ok urls =>
        rw [hres] at hbmem
        obtain ⟨c, hc, hfc⟩ := List.mem_filterMap.1 hbmem
        refine ⟨c, hc, ?_⟩
        split at hfc
        · exact Option.noConfusion hfc
        · split at hfc
          · have := Option.some.inj hfc
            rw [← this]
          · exact Option.noConfusion hfc
  · intro b hb urls hres c hc u hj hd
    rw [exportComponentImages_eq]
    apply List.mem_flatMap.2
    refine ⟨b, hb, ?_⟩
    rw [batchEntries, hres]
    apply List.mem_filterMap.2
    refine ⟨c, hc, ?_⟩
    rw [hj]
    dsimp only
    rw [if_pos hd]

/-- Witness for C7: two single-batch components, one of whose node ids has
no export URL; all downloads succeed; the output has exactly one entry. -/
theorem exportComponentImages_spec_witness :
    (exportComponentImages (α := Unit) (fun _ => false)
      (fun ids => Except.ok (ids.filterMap (fun id =>
        ((if id == "n2" then none else some ("u-" ++ id)) :
          Option String).map (fun u => (id, u)))))
      (fun _ => true)
      [⟨"A", "", [], [], none, "n1", none, none⟩,
       ⟨"B", "", [], [], none, "n2", none, none⟩]).length =
      [⟨"A", "", [], [], none, "n1", none, none⟩,
       (⟨"B", "", [], [], none, "n2", none, none⟩ :
         ExtractedComponent Unit)].length - 1 :=
  (exportComponentImages_spec (fun _ => false)
      (fun ids => Except.ok (ids.filterMap (fun id =>
        ((if id == "n2" then none else some ("u-" ++ id)) :
          Option String).map (fun u => (id, u)))))
      (fun _ => true)
      [⟨"A", "", [], [], none, "n1", none, none⟩,
       ⟨"B", "", [], [], none, "n2", none, none⟩]).1
    (fun id => if id == "n2" then none else some ("u-" ++ id)) "n2"
    (fun c _ => rfl)
    (fun ids => rfl)
    (fun id => by
      by_cases h : id = "n2"
      · subst h; simp
      · simp [h])
    (fun u => rfl)
    (by decide)

/-! ## Theme fallback (claim C3) -/

/-- Claim C3: whenever fewer than 3 distinct valid 6-digit hex colors are
available in the palette, `deriveTheme` returns the documented constant
fallback theme exactly, regardless of the user brand color; the fallback is
a closed constant, none of whose fields depends on the palette. -/
theorem deriveTheme_fallback (rawColorKeys : List String)
    (brandColor : Option String)
    (h : (rawColorKeys.filter isHex6).length < 3) :
    deriveTheme rawColorKeys brandColor = fallbackTheme := by
  have hsort : ((rawColorKeys.filter isHex6).mergeSort
      (fun a b => decide (lumStr a ≤ lumStr b))).length < 3 := by
    rw [(List.mergeSort_perm _ _).length_eq]
    exact h
  rw [deriveTheme]
  by_cases hlen : rawColorKeys.length < 3
  · simp only [if_pos hlen]
  · simp only [if_neg hlen, if_pos hsort]

/-- Witness for C3: a two-entry palette with only one valid hex key
produces the fallback theme. -/
theorem deriveTheme_fallback_witness :
    ((["#ff0000", "red"].filter isHex6).length < 3) ∧
    deriveTheme ["#ff0000", "red"] none = fallbackTheme :=
  ⟨by decide, deriveTheme_fallback ["#ff0000", "red"] none (by decide)⟩

/-! ## Component list sorting (claim C10) -/

theorem mergeSort_pair {γ : Type} (le : γ → γ → Bool) (a b : γ) :
    List.mergeSort [a, b] le = if le a b then [a, b] else [b, a] := by
  simp [List.mergeSort, List.merge]

theorem lexLE_trans : ∀ x y z : List Char,
    lexLE x y = true → lexLE y z = true → lexLE x z = true := by
  intro x
  induction x with
  | nil => intro y z _ _; rfl
  | cons a as ih =>
    intro y z hxy hyz
    cases y with
    | nil => rw [lexLE] at hxy; exact Bool.noConfusion hxy
    | cons b bs =>
      cases z with
      | nil => rw [lexLE] at hyz; exact Bool.noConfusion hyz
      | cons c cs =>
        rw [lexLE] at hxy hyz ⊢
        by_cases hab : a.toNat < b.toNat
        · by_cases hbc : b.toNat < c.toNat
          · rw [if_pos (by omega : a.toNat < c.toNat)]
          · rw [if_neg hbc] at hyz
            by_cases hcb : c.toNat < b.toNat
            · rw [if_pos hcb] at hyz
              exact Bool.noConfusion hyz
            · rw [if_pos (by omega : a.toNat < c.toNat)]
        · rw [if_neg hab] at hxy
          by_cases hba : b.toNat < a.toNat
          · rw [if_pos hba] at hxy
            exact Bool.noConfusion hxy
          · rw [if_neg hba] at hxy
            by_cases hbc : b.toNat < c.toNat
            · rw [if_pos (by omega : a.toNat < c.toNat)]
            · rw [if_neg hbc] at hyz
              by_cases hcb : c.toNat < b.toNat
              · rw [if_pos hcb] at hyz
                exact Bool.noConfusion hyz
              · rw [if_neg hcb] at hyz
                rw [if_neg (by omega : ¬ a.toNat < c.toNat),
                  if_neg (by omega : ¬ c.toNat < a.toNat)]
                exact ih bs cs hxy hyz

theorem lexLE_total : ∀ x y : List Char,
    lexLE x y = true ∨ lexLE y x = true := by
  intro x
  induction x with
  | nil => intro y; left; rfl
  | cons a as ih =>
    intro y
    cases y with
    | nil => right; rfl
    | cons b bs =>
      simp only [lexLE]
      by_cases hab : a.toNat < b.toNat
      · left
        rw [if_pos hab]
      · by_cases hba : b.toNat < a.toNat
        · right
          rw [if_pos hba]
        · rcases ih bs with h | h
          · left
            rw [if_neg hab, if_neg hba]
            exact h
          · right
            rw [if_neg hba, if_neg hab]
            exact h

theorem localeLE_trans (a b c : String) (hab : localeLE a b = true)
    (hbc : localeLE b c = true) : localeLE a c = true :=
  lexLE_trans _ _ _ hab hbc

theorem localeLE_total (a b : String) :
    localeLE a b = true ∨ localeLE b a = true :=
  lexLE_total _ _

/-- Amended claim C10: `extractComponents` sorts by the runtime's locale
comparator `a.name.localeCompare(b.name)`, modelled as the oracle `lc`;
for every comparator that is transitive and total — as `localeCompare`
under a fixed locale is — the returned component list is sorted ascending
by name under that comparator and is a permutation of the built
components, regardless of document or metadata order.  The list need not
be sorted under code-point string comparison (see the counterexample). -/
theorem extractComponents_locale_sorted {α : Type} (styleOf : FigmaNode → α)
    (lc : String → String → Bool)
    (htrans : ∀ a b c, lc a b = true → lc b c = true → lc a c = true)
    (htotal : ∀ a b, lc a b = true ∨ lc b a = true)
    (doc : FigmaNode) (componentsMeta : List (String × CompMeta))
    (componentSetsMeta : List (String × SetMeta)) :
    (extractComponents styleOf lc doc componentsMeta
        componentSetsMeta).1.Pairwise
      (fun a b => lc a.name b.name = true) ∧
    (extractComponents styleOf lc doc componentsMeta
        componentSetsMeta).1.Perm
      (buildComponents styleOf doc componentsMeta componentSetsMeta) := by
  constructor
  · exact @List.sorted_mergeSort (ExtractedComponent α)
      (fun a b => lc a.name b.name)
      (fun a b c hab hbc => htrans _ _ _ hab hbc)
      (fun a b => by
        rcases htotal a.name b.name with h | h <;> simp [h])
      (buildComponents styleOf doc componentsMeta componentSetsMeta)
  · exact List.mergeSort_perm _ _

theorem extractComponents_locale_sorted_witness :
    (extractComponents (α := Unit) (fun _ => ()) localeLE
        (FigmaNode.node "d" "Doc" [] [])
        [("n1", ⟨"Banner", "", none⟩), ("n2", ⟨"alert", "", none⟩)]
        []).1.Pairwise (fun a b => localeLE a.name b.name = true) ∧
    (extractComponents (α := Unit) (fun _ => ()) localeLE
        (FigmaNode.node "d" "Doc" [] [])
        [("n1", ⟨"Banner", "", none⟩), ("n2", ⟨"alert", "", none⟩)]
        []).1.Perm
      (buildComponents (α := Unit) (fun _ => ())
        (FigmaNode.node "d" "Doc" [] [])
        [("n1", ⟨"Banner", "", none⟩), ("n2", ⟨"alert", "", none⟩)] []) :=
  extractComponents_locale_sorted (fun _ => ()) localeLE localeLE_trans
    localeLE_total (FigmaNode.node "d" "Doc" [] [])
    [("n1", ⟨"Banner", "", none⟩), ("n2", ⟨"alert", "", none⟩)] []

/-- Counterexample to claim C10 as stated: the source sorts with the
locale comparator `localeCompare`, and in the default locale "alert"
orders strictly before "Banner" (modelled by the case-insensitive
collation `localeLE`, which agrees with the observed Node behavior on
this pair); the extraction output is then ["alert", "Banner"], which is
not sorted ascending under code-point string comparison, since
code-point comparison orders "Banner" strictly before "alert". -/
theorem extractComponents_claim10_counterexample :
    (localeLE "alert" "Banner" = true ∧ localeLE "Banner" "alert" = false) ∧
    ((extractComponents (α := Unit) (fun _ => ()) localeLE
        (FigmaNode.node "d" "Doc" [] [])
        [("n1", ⟨"Banner", "", none⟩), ("n2", ⟨"alert", "", none⟩)]
        []).1.map (fun c => c.name) = ["alert", "Banner"]) ∧
    ¬ ((extractComponents (α := Unit) (fun _ => ()) localeLE
        (FigmaNode.node "d" "Doc" [] [])
        [("n1", ⟨"Banner", "", none⟩), ("n2", ⟨"alert", "", none⟩)]
        []).1.Pairwise (fun a b => a.name ≤ b.name)) := by
  have hbc : buildComponents (α := Unit) (fun _ => ())
      (FigmaNode.node "d" "Doc" [] [])
      [("n1", ⟨"Banner", "", none⟩), ("n2", ⟨"alert", "", none⟩)] [] =
      [⟨"Banner", "", [], [], none, "n1", none, none⟩,
       ⟨"alert", "", [], [], none, "n2", none, none⟩] := by decide
  have hout : (extractComponents (α := Unit) (fun _ => ()) localeLE
      (FigmaNode.node "d" "Doc" [] [])
      [("n1", ⟨"Banner", "", none⟩), ("n2", ⟨"alert", "", none⟩)] []).1 =
      [⟨"alert", "", [], [], none, "n2", none, none⟩,
       ⟨"Banner", "", [], [], none, "n1", none, none⟩] := by
    show (buildComponents (α := Unit) (fun _ => ())
        (FigmaNode.node "d" "Doc" [] [])
        [("n1", ⟨"Banner", "", none⟩),
         ("n2", ⟨"alert", "", none⟩)] []).mergeSort
        (fun a b => localeLE a.name b.name) = _
    rw [hbc, mergeSort_pair, if_neg (by decide)]
  refine ⟨⟨by decide, by decide⟩, ?_, ?_⟩
  · rw [hout]
    rfl
  · intro hpw
    rw [hout] at hpw
    have h := (List.pairwise_cons.1 hpw).1 _ (List.mem_singleton_self _)
    exact absurd (String.le_iff_toList_le.1 h) (by decide)

/-! ## Raw-token traversal (claim C9) -/

mutual

theorem visitPaths_mem : ∀ (t : FigmaNode) (p : List ℕ),
    p ∈ visitPaths t ↔ (nodeAt t p).isSome
  | .node i n pr c, p => by
    rw [visitPaths]
    cases p with
    | nil => simp [nodeAt]
    | cons j q =>
      rw [List.mem_cons]
      simp only [List.cons_ne_nil, false_or]
      rw [visitPathsList_mem c 0 (j :: q)]
      constructor
      · rintro ⟨j0, q0, heq, hsome⟩
        have hj : j = j0 := by
          have := congrArg (fun l => List.headD l 0) heq
          simpa using this
        have hq : q = q0 := by
          have := congrArg List.tail heq
          simpa using this
        subst hj; subst hq
        rw [nodeAt]
        exact hsome
      · intro hsome
        exact ⟨j, q, by simp, by rw [nodeAt] at hsome; exact hsome⟩

theorem visitPathsList_mem : ∀ (c : List FigmaNode) (i : ℕ) (p : List ℕ),
    p ∈ visitPathsList i c ↔
      ∃ j q, p = (i + j) :: q ∧ (nodeAtList c j q).isSome
  | [], i, p => by
    rw [visitPathsList]
    simp [nodeAtList]
  | x :: xs, i, p => by
    rw [visitPathsList, List.mem_append, List.mem_map,
      visitPathsList_mem xs (i + 1) p]
    constructor
    · rintro (⟨q, hq, rfl⟩ | ⟨j, q, rfl, hsome⟩)
      · exact ⟨0, q, by simp, by
          rw [nodeAtList]
          exact (visitPaths_mem x q).1 hq⟩
      · refine ⟨j + 1, q, ?_, by rw [nodeAtList]; exact hsome⟩
        have h3 : i + 1 + j = i + (j + 1) := by omega
        rw [h3]
    · rintro ⟨j, q, rfl, hsome⟩
      cases j with
      | zero =>
        left
        refine ⟨q, ?_, by simp⟩
        rw [nodeAtList] at hsome
        exact (visitPaths_mem x q).2 hsome
      | succ j0 =>
        right
        refine ⟨j0, q, ?_, ?_⟩
        · have h3 : i + (j0 + 1) = i + 1 + j0 := by omega
          rw [h3]
        · rw [nodeAtList] at hsome
          exact hsome

end

mutual

theorem visitPaths_nodup : ∀ (t : FigmaNode), (visitPaths t).Nodup
  | .node i n pr c => by
    rw [visitPaths]
    refine List.Nodup.cons ?_ (visitPathsList_nodup c 0)
    intro hmem
    obtain ⟨j, q, heq, _⟩ := (visitPathsList_mem c 0 []).1 hmem
    exact List.noConfusion heq

theorem visitPathsList_nodup : ∀ (c : List FigmaNode) (i : ℕ),
    (visitPathsList i c).Nodup
  | [], i => by rw [visitPathsList]; exact List.nodup_nil
  | x :: xs, i => by
    rw [visitPathsList]
    rw [List.nodup_append]
    refine ⟨List.Nodup.map ?_ (visitPaths_nodup x),
      visitPathsList_nodup xs (i + 1), ?_⟩
    · intro a b hab
      exact (List.cons.injEq _ _ _ _ ▸ hab).2
    · intro p hp1 hp2
      obtain ⟨q, _, rfl⟩ := List.mem_map.1 hp1
      obtain ⟨j, q0, heq, _⟩ := (visitPathsList_mem xs (i + 1) _).1 hp2
      have : i = i + 1 + j := (List.cons.injEq _ _ _ _ ▸ heq).1
      omega

end

mutual

theorem visitPaths_parent_first : ∀ (t : FigmaNode) (p : List ℕ) (x : ℕ),
    (p ++ [x]) ∈ visitPaths t → [p, p ++ [x]].Sublist (visitPaths t)
  | .node i n pr c, p, x => by
    intro hmem
    rw [visitPaths] at hmem ⊢
    cases p with
    | nil =>
      refine List.Sublist.cons₂ _ ?_
      refine List.singleton_sublist.2 ?_
      rcases List.mem_cons.1 hmem with h | h
      · exact absurd h (by simp)
      · simpa using h
    | cons j q =>
      refine List.Sublist.cons _ ?_
      have hmem2 : (j :: (q ++ [x])) ∈ visitPathsList 0 c := by
        rcases List.mem_cons.1 hmem with h | h
        · exact absurd h (by simp)
        · simpa using h
      exact visitPathsList_parent_first c 0 j q x hmem2

theorem visitPathsList_parent_first : ∀ (c : List FigmaNode) (i j : ℕ)
    (q : List ℕ) (x : ℕ), (j :: (q ++ [x])) ∈ visitPathsList i c →
    [j :: q, j :: (q ++ [x])].Sublist (visitPathsList i c)
  | [], i, j, q, x => by
    intro hmem
    rw [visitPathsList] at hmem
    exact absurd hmem (List.not_mem_nil _)
  | y :: ys, i, j, q, x => by
    intro hmem
    rw [visitPathsList] at hmem ⊢
    rcases List.mem_append.1 hmem with h | h
    · obtain ⟨q0, hq0, heq⟩ := List.mem_map.1 h
      have hj : i = j := (List.cons.injEq _ _ _ _ ▸ heq).1
      have hq : q0 = q ++ [x] := (List.cons.injEq _ _ _ _ ▸ heq).2
      subst hj
      rw [hq] at hq0
      have hsub := visitPaths_parent_first y q x hq0
      have hsub2 := hsub.map (fun p => i :: p)
      exact hsub2.trans (List.sublist_append_left _ _)
    · have hsub := visitPathsList_parent_first ys (i + 1) j q x h
      exact hsub.trans (List.sublist_append_right _ _)

end

mutual

theorem visitOrder_eq_map_paths : ∀ (t : FigmaNode),
    (visitPaths t).map (nodeAt t) = (visitOrder t).map some
  | .node i n pr c => by
    rw [visitPaths, visitOrder, List.map_cons, List.map_cons, nodeAt]
    congr 1
    rw [← visitOrderList_eq_map c 0]
    apply List.map_congr_left
    intro p hp
    obtain ⟨j, q, rfl, _⟩ := (visitPathsList_mem c 0 p).1 hp
    rw [nodeAt]
    simp

theorem visitOrderList_eq_map : ∀ (c : List FigmaNode) (i : ℕ),
    (visitPathsList i c).map
      (fun p => match p with
        | [] => (none : Option FigmaNode)
        | j :: q => nodeAtList c (j - i) q) =
    (visitOrderList c).map some
  | [], i => by rw [visitPathsList, visitOrderList]; rfl
  | x :: xs, i => by
    rw [visitPathsList, visitOrderList, List.map_append, List.map_append,
      List.map_map]
    congr 1
    · have hfun : ((fun p => match p with
          | [] => (none : Option FigmaNode)
          | j :: q => nodeAtList (x :: xs) (j - i) q) ∘ (fun p => i :: p)) =
          fun q => nodeAt x q := by
        funext q
        simp only [Function.comp_apply, Nat.sub_self]
        rw [nodeAtList]
      rw [hfun]
      rw [visitOrder_eq_map_paths x]
    · rw [← visitOrderList_eq_map xs (i + 1)]
      apply List.map_congr_left
      intro p hp
      obtain ⟨j, q, rfl, _⟩ := (visitPathsList_mem xs (i + 1) p).1 hp
      have h1 : i + 1 + j - i = j + 1 := by omega
      have h2 : i + 1 + j - (i + 1) = j := by omega
      dsimp only
      rw [h1, h2, nodeAtList]

end

/-- Claim C9: the raw-token traversal visits exactly the tree positions of
the root, each exactly once, parents before children: evaluating `nodeAt`
along the visit-path sequence reproduces the visited node sequence of
`traverseNode`; the visit-path sequence has no duplicates; it contains
precisely the valid tree positions; and every position occurs after its
parent position. -/
theorem extractRawTokens_traversal (t : FigmaNode) :
    (visitPaths t).map (nodeAt t) = (visitOrder t).map some ∧
    (visitPaths t).Nodup ∧
    (∀ p, p ∈ visitPaths t ↔ (nodeAt t p).isSome) ∧
    (∀ p x, (p ++ [x]) ∈ visitPaths t → [p, p ++ [x]].Sublist (visitPaths t)) :=
  ⟨visitOrder_eq_map_paths t, visitPaths_nodup t, visitPaths_mem t,
    fun p x => visitPaths_parent_first t p x⟩

/-- Witness for C9: in a concrete two-level tree the position of the
grandchild occurs after the position of its parent. -/
theorem extractRawTokens_traversal_witness :
    [[(0 : ℕ)], [0] ++ [0]].Sublist (visitPaths
      (FigmaNode.node "r" "root" []
        [FigmaNode.node "a" "A" [] [FigmaNode.node "b" "B" [] []]])) :=
  (extractRawTokens_traversal
      (FigmaNode.node "r" "root" []
        [FigmaNode.node "a" "A" [] [FigmaNode.node "b" "B" [] []]])).2.2.2
    [0] 0 (by decide)

/-! ## Association-list lemmas for the grouping maps -/

theorem jget_eq_none_iff {β : Type} (m : List (String × β)) (k : String) :
    jget m k = none ↔ k ∉ m.map Prod.fst := by
  induction m with
  | nil => simp [jget]
  | cons e rest ih =>
    obtain ⟨a, v⟩ := e
    rw [jget_cons]
    by_cases h : (a == k) = true
    · have ha : a = k := eq_of_beq h
      subst ha
      simp [h]
    · have ha : a ≠ k := fun hc => h (beq_iff_eq.2 hc)
      rw [if_neg h]
      rw [ih]
      simp only [List.map_cons, List.mem_cons]
      constructor
      · intro hk hor
        rcases hor with hor | hor
        · exact ha hor.symm
        · exact hk hor
      · intro hk hmem
        exact hk (Or.inr hmem)

theorem mapSet_jget_same {β : Type} (m : List (String × β)) (k : String)
    (f : β → β) (init : β) :
    jget (mapSet m k f init) k =
      some (match jget m k with | some v => f v | none => init) := by
  induction m with
  | nil => simp [mapSet, jget]
  | cons e rest ih =>
    obtain ⟨a, v⟩ := e
    rw [mapSet]
    by_cases h : (a == k) = true
    · have ha : a = k := eq_of_beq h
      subst ha
      rw [if_pos h, jget_cons, jget_cons, if_pos h, if_pos h]
    · rw [if_neg h, jget_cons, jget_cons, if_neg h, if_neg h, ih]

theorem mapSet_jget_other {β : Type} (m : List (String × β)) (k k2 : String)
    (f : β → β) (init : β) (hne : k2 ≠ k) :
    jget (mapSet m k f init) k2 = jget m k2 := by
  have hne2 : (k == k2) = false := beq_eq_false_iff_ne.2 (fun hc => hne hc.symm)
  induction m with
  | nil => simp [mapSet, jget, hne2]
  | cons e rest ih =>
    obtain ⟨a, v⟩ := e
    rw [mapSet]
    by_cases h : (a == k) = true
    · have ha : a = k := eq_of_beq h
      subst ha
      rw [if_pos h, jget_cons, jget_cons, hne2]
      simp
    · rw [if_neg h, jget_cons, jget_cons, ih]

theorem mapSet_keys {β : Type} (m : List (String × β)) (k : String)
    (f : β → β) (init : β) :
    (mapSet m k f init).map Prod.fst =
      if k ∈ m.map Prod.fst then m.map Prod.fst
      else m.map Prod.fst ++ [k] := by
  induction m with
  | nil => simp [mapSet]
  | cons e rest ih =>
    obtain ⟨a, v⟩ := e
    rw [mapSet]
    by_cases h : (a == k) = true
    · have ha : a = k := eq_of_beq h
      subst ha
      rw [if_pos h]
      simp
    · have ha : a ≠ k := fun hc => h (beq_iff_eq.2 hc)
      rw [if_neg h]
      simp only [List.map_cons, ih]
      by_cases hk : k ∈ rest.map Prod.fst
      · rw [if_pos hk, if_pos (List.mem_cons.2 (Or.inr hk))]
      · rw [if_neg hk, if_neg (by
          intro hc
          rcases List.mem_cons.1 hc with hc | hc
          · exact ha hc.symm
          · exact hk hc)]
        rfl

theorem mapSet_keys_nodup {β : Type} (m : List (String × β)) (k : String)
    (f : β → β) (init : β) (h : (m.map Prod.fst).Nodup) :
    ((mapSet m k f init).map Prod.fst).Nodup := by
  rw [mapSet_keys]
  by_cases hk : k ∈ m.map Prod.fst
  · rw [if_pos hk]; exact h
  · rw [if_neg hk]
    simp [List.nodup_append, h, hk]

theorem jget_of_mem_nodup {β : Type} (m : List (String × β)) (k : String)
    (b : β) (hnd : (m.map Prod.fst).Nodup) (hmem : (k, b) ∈ m) :
    jget m k = some b := by
  induction m with
  | nil => exact absurd hmem (List.not_mem_nil _)
  | cons e rest ih =>
    obtain ⟨a, v⟩ := e
    rw [jget_cons]
    rcases List.mem_cons.1 hmem with h | h
    · obtain ⟨h1, h2⟩ := Prod.mk.injEq .. ▸ h
      subst h1; subst h2
      simp
    · have ha : a ≠ k := by
        intro hc
        subst hc
        have : a ∈ rest.map Prod.fst := List.mem_map.2 ⟨(a, b), h, rfl⟩
        exact (List.nodup_cons.1 (by simpa using hnd)).1 this
      rw [if_neg (by simpa using ha)]
      exact ih (List.nodup_cons.1 (by simpa using hnd)).2 h

theorem mem_of_jget {β : Type} (m : List (String × β)) (k : String) (b : β)
    (hj : jget m k = some b) : (k, b) ∈ m := by
  induction m with
  | nil => simp [jget] at hj
  | cons e rest ih =>
    obtain ⟨a, v⟩ := e
    rw [jget_cons] at hj
    by_cases h : (a == k) = true
    · rw [if_pos h] at hj
      have ha : a = k := eq_of_beq h
      have hv : v = b := Option.some.inj hj
      subst ha; subst hv
      exact List.mem_cons_self _ _
    · rw [if_neg h] at hj
      exact List.mem_cons_of_mem _ (ih hj)

/-! ## Characterization of the grouping fold (claims C4 and C5) -/

theorem setMembers_cons (sm : List (String × SetMeta)) (e : String × CompMeta)
    (L : List (String × CompMeta)) (sid : String) :
    setMembers sm (e :: L) sid =
      if (!(startsWithDot e.2.name) && (e.2.componentSetId == some sid) &&
          !(setIsPrivate sm sid)) = true
      then e :: setMembers sm L sid else setMembers sm L sid := by
  rw [setMembers, setMembers, List.filter_cons]

theorem groupStep_dot {α : Type} (styleOf : FigmaNode → α)
    (sm : List (String × SetMeta)) (nodeMap : List (String × FigmaNode))
    (frameMap : List (String × String))
    (acc : List (String × SetData) × List (ExtractedComponent α))
    (e : String × CompMeta) (h : startsWithDot e.2.name = true) :
    groupStep styleOf sm nodeMap frameMap acc e = acc := by
  rw [groupStep]
  simp only [h, if_true]

theorem groupStep_standalone {α : Type} (styleOf : FigmaNode → α)
    (sm : List (String × SetMeta)) (nodeMap : List (String × FigmaNode))
    (frameMap : List (String × String))
    (acc : List (String × SetData) × List (ExtractedComponent α))
    (e : String × CompMeta) (h1 : startsWithDot e.2.name = false)
    (h2 : e.2.componentSetId = none) :
    groupStep styleOf sm nodeMap frameMap acc e =
      (acc.1, acc.2 ++ [mkStandalone styleOf nodeMap frameMap e.1 e.2]) := by
  rw [groupStep]
  simp only [h1, h2, Bool.false_eq_true, if_false]

theorem groupStep_private_set {α : Type} (styleOf : FigmaNode → α)
    (sm : List (String × SetMeta)) (nodeMap : List (String × FigmaNode))
    (frameMap : List (String × String))
    (acc : List (String × SetData) × List (ExtractedComponent α))
    (e : String × CompMeta) (s0 : String)
    (h1 : startsWithDot e.2.name = false)
    (h2 : e.2.componentSetId = some s0) (h3 : setIsPrivate sm s0 = true) :
    groupStep styleOf sm nodeMap frameMap acc e = acc := by
  rw [groupStep]
  simp only [h1, h2, Bool.false_eq_true, if_false]
  rw [show ((jget sm s0).map (fun sm2 => startsWithDot sm2.name)).getD false =
      setIsPrivate sm s0 from rfl, h3]
  simp

theorem groupStep_member {α : Type} (styleOf : FigmaNode → α)
    (sm : List (String × SetMeta)) (nodeMap : List (String × FigmaNode))
    (frameMap : List (String × String))
    (acc : List (String × SetData) × List (ExtractedComponent α))
    (e : String × CompMeta) (s0 : String)
    (h1 : startsWithDot e.2.name = false)
    (h2 : e.2.componentSetId = some s0) (h3 : setIsPrivate sm s0 = false) :
    groupStep styleOf sm nodeMap frameMap acc e =
      (mapSet acc.1 s0
        (fun d => ⟨d.meta, d.variants ++ [e.2.name], d.variantNodeIds ++ [e.1]⟩)
        ⟨(jget sm s0).getD (fallbackSetMeta e.2.name), [e.2.name], [e.1]⟩,
       acc.2) := by
  rw [groupStep]
  simp only [h1, h2, Bool.false_eq_true, if_false]
  rw [show ((jget sm s0).map (fun sm2 => startsWithDot sm2.name)).getD false =
      setIsPrivate sm s0 from rfl, h3]
  simp

theorem standComponents_cons {α : Type} (styleOf : FigmaNode → α)
    (nodeMap : List (String × FigmaNode)) (frameMap : List (String × String))
    (e : String × CompMeta) (L : List (String × CompMeta)) :
    standComponents styleOf nodeMap frameMap (e :: L) =
      (if (!(startsWithDot e.2.name) && (e.2.componentSetId == none)) = true
       then [mkStandalone styleOf nodeMap frameMap e.1 e.2] else []) ++
        standComponents styleOf nodeMap frameMap L := by
  by_cases hcond : (!(startsWithDot e.2.name) && (e.2.componentSetId == none)) = true
  · rw [standComponents, standComponents, List.filterMap_cons, if_pos hcond,
      if_pos hcond]
    rfl
  · rw [standComponents, standComponents, List.filterMap_cons, if_neg hcond,
      if_neg hcond]
    rfl

theorem groupFold_sets {α : Type} (styleOf : FigmaNode → α)
    (sm : List (String × SetMeta)) (nodeMap : List (String × FigmaNode))
    (frameMap : List (String × String)) :
    ∀ (L : List (String × CompMeta))
      (acc : List (String × SetData) × List (ExtractedComponent α))
      (sid : String),
      jget (L.foldl (groupStep styleOf sm nodeMap frameMap) acc).1 sid =
        match jget acc.1 sid with
        | some d => some ⟨d.meta,
            d.variants ++ (setMembers sm L sid).map (fun e2 => e2.2.name),
            d.variantNodeIds ++ (setMembers sm L sid).map Prod.fst⟩
        | none =>
          match setMembers sm L sid with
          | [] => none
          | e2 :: es => some ⟨(jget sm sid).getD (fallbackSetMeta e2.2.name),
              (e2 :: es).map (fun x => x.2.name), (e2 :: es).map Prod.fst⟩ := by
  intro L
  induction L with
  | nil =>
    intro acc sid
    rw [List.foldl_nil, setMembers]
    simp only [List.filter_nil]
    cases h : jget acc.1 sid with
    | none => simp
    | some d => simp
  | cons e L ih =>
    intro acc sid
    rw [List.foldl_cons, setMembers_cons]
    by_cases hdot : startsWithDot e.2.name = true
    · rw [if_neg (by simp [hdot]),
        groupStep_dot styleOf sm nodeMap frameMap acc e hdot]
      exact ih acc sid
    · have hdot2 : startsWithDot e.2.name = false := by
        cases hb : startsWithDot e.2.name
        · rfl
        · exact absurd hb hdot
      cases hcs : e.2.componentSetId with
      | none =>
        rw [if_neg (by simp),
          groupStep_standalone styleOf sm nodeMap frameMap acc e hdot2 hcs]
        exact ih _ sid
      | some s0 =>
        by_cases hpriv : setIsPrivate sm s0 = true
        · rw [if_neg (by
            intro hcond
            simp only [Bool.and_eq_true, beq_iff_eq, Option.some.injEq] at hcond
            obtain ⟨⟨hd, hsome⟩, hc⟩ := hcond
            rw [← hsome, hpriv] at hc
            simp at hc),
            groupStep_private_set styleOf sm nodeMap frameMap acc e s0 hdot2 hcs hpriv]
          exact ih acc sid
        · have hpriv2 : setIsPrivate sm s0 = false := by
            cases hb : setIsPrivate sm s0
            · rfl
            · exact absurd hb hpriv
          rw [groupStep_member styleOf sm nodeMap frameMap acc e s0 hdot2 hcs hpriv2]
          by_cases hsid : sid = s0
          · subst hsid
            rw [if_pos (by simp [hdot2, hpriv2]), ih _ sid, mapSet_jget_same]
            cases h : jget acc.1 sid with
            | some d =>
              dsimp only
              simp
            | none =>
              dsimp only
              simp
          · rw [if_neg (by
              intro hcond
              simp only [Bool.and_eq_true, beq_iff_eq, Option.some.injEq] at hcond
              exact hsid hcond.1.2.symm),
              ih _ sid, mapSet_jget_other _ _ _ _ _ hsid]

theorem groupFold_stands {α : Type} (styleOf : FigmaNode → α)
    (sm : List (String × SetMeta)) (nodeMap : List (String × FigmaNode))
    (frameMap : List (String × String)) :
    ∀ (L : List (String × CompMeta))
      (acc : List (String × SetData) × List (ExtractedComponent α)),
      (L.foldl (groupStep styleOf sm nodeMap frameMap) acc).2 =
        acc.2 ++ standComponents styleOf nodeMap frameMap L := by
  intro L
  induction L with
  | nil => intro acc; simp [standComponents]
  | cons e L ih =>
    intro acc
    rw [List.foldl_cons, standComponents_cons]
    by_cases hdot : startsWithDot e.2.name = true
    · rw [groupStep_dot styleOf sm nodeMap frameMap acc e hdot, ih acc,
        if_neg (by simp [hdot])]
      rw [List.nil_append]
    · have hdot2 : startsWithDot e.2.name = false := by
        cases hb : startsWithDot e.2.name
        · rfl
        · exact absurd hb hdot
      cases hcs : e.2.componentSetId with
      | none =>
        rw [groupStep_standalone styleOf sm nodeMap frameMap acc e hdot2 hcs,
          ih _, if_pos (by simp [hdot2])]
        simp [List.append_assoc]
      | some s0 =>
        rw [if_neg (by simp)]
        by_cases hpriv : setIsPrivate sm s0 = true
        · rw [groupStep_private_set styleOf sm nodeMap frameMap acc e s0 hdot2 hcs hpriv,
            ih acc, List.nil_append]
        · have hpriv2 : setIsPrivate sm s0 = false := by
            cases hb : setIsPrivate sm s0
            · rfl
            · exact absurd hb hpriv
          rw [groupStep_member styleOf sm nodeMap frameMap acc e s0 hdot2 hcs hpriv2,
            ih _, List.nil_append]

theorem groupFold_keys_nodup {α : Type} (styleOf : FigmaNode → α)
    (sm : List (String × SetMeta)) (nodeMap : List (String × FigmaNode))
    (frameMap : List (String × String)) :
    ∀ (L : List (String × CompMeta))
      (acc : List (String × SetData) × List (ExtractedComponent α)),
      ((acc.1.map Prod.fst).Nodup) →
      (((L.foldl (groupStep styleOf sm nodeMap frameMap) acc).1.map
        Prod.fst).Nodup) := by
  intro L
  induction L with
  | nil => intro acc h; simpa using h
  | cons e L ih =>
    intro acc h
    rw [List.foldl_cons]
    by_cases hdot : startsWithDot e.2.name = true
    · rw [groupStep_dot styleOf sm nodeMap frameMap acc e hdot]
      exact ih acc h
    · have hdot2 : startsWithDot e.2.name = false := by
        cases hb : startsWithDot e.2.name
        · rfl
        · exact absurd hb hdot
      cases hcs : e.2.componentSetId with
      | none =>
        rw [groupStep_standalone styleOf sm nodeMap frameMap acc e hdot2 hcs]
        exact ih _ h
      | some s0 =>
        by_cases hpriv : setIsPrivate sm s0 = true
        · rw [groupStep_private_set styleOf sm nodeMap frameMap acc e s0 hdot2 hcs hpriv]
          exact ih acc h
        · have hpriv2 : setIsPrivate sm s0 = false := by
            cases hb : setIsPrivate sm s0
            · rfl
            · exact absurd hb hpriv
          rw [groupStep_member styleOf sm nodeMap frameMap acc e s0 hdot2 hcs hpriv2]
          exact ih _ (mapSet_keys_nodup _ _ _ _ h)

/-! ## Assembly of the extracted component list -/

theorem startsWithDot_fallback (s : String) (h : startsWithDot s = false) :
    startsWithDot (fallbackSetMeta s).name = false := by
  have hgoal : startsWithDot (fallbackSetMeta s).name =
      ((s.toList.takeWhile (fun c2 => decide (c2 ≠ Char.ofNat 47))).head? ==
        some (Char.ofNat 46)) := rfl
  rw [hgoal]
  rw [startsWithDot] at h
  cases hl : s.toList with
  | nil => rfl
  | cons c rest =>
    rw [List.takeWhile_cons]
    by_cases hc : c = Char.ofNat 47
    · rw [if_neg (by simp [hc])]
      rfl
    · rw [if_pos (by simp [hc])]
      rw [List.head?_cons]
      rw [hl] at h
      rw [List.head?_cons] at h
      exact h

theorem setMembers_private_false (sm : List (String × SetMeta))
    (L : List (String × CompMeta)) (sid : String) (e : String × CompMeta)
    (es : List (String × CompMeta)) (hS : setMembers sm L sid = e :: es) :
    setIsPrivate sm sid = false := by
  have hmem : e ∈ setMembers sm L sid := by rw [hS]; exact List.mem_cons_self _ _
  have hp := List.of_mem_filter hmem
  simp only [Bool.and_eq_true, Bool.not_eq_true'] at hp
  exact hp.2

theorem setMembers_flags (sm : List (String × SetMeta))
    (L : List (String × CompMeta)) (sid : String) (m : String × CompMeta)
    (hmem : m ∈ setMembers sm L sid) :
    m ∈ L ∧ startsWithDot m.2.name = false ∧
      m.2.componentSetId = some sid := by
  refine ⟨List.mem_of_mem_filter hmem, ?_, ?_⟩
  · have hp := List.of_mem_filter hmem
    simp only [Bool.and_eq_true, Bool.not_eq_true'] at hp
    exact hp.1.1
  · have hp := List.of_mem_filter hmem
    simp only [Bool.and_eq_true, beq_iff_eq] at hp
    exact hp.1.2

theorem fold_entry_char {α : Type} (styleOf : FigmaNode → α)
    (sm : List (String × SetMeta)) (nodeMap : List (String × FigmaNode))
    (frameMap : List (String × String)) (L : List (String × CompMeta))
    (sid : String) (d : SetData)
    (hmem : (sid, d) ∈ (L.foldl (groupStep styleOf sm nodeMap frameMap)
      (([], []) : List (String × SetData) × List (ExtractedComponent α))).1) :
    ∃ m ms, setMembers sm L sid = m :: ms ∧
      d = ⟨(jget sm sid).getD (fallbackSetMeta m.2.name),
        (m :: ms).map (fun x => x.2.name), (m :: ms).map Prod.fst⟩ := by
  have hnd := groupFold_keys_nodup styleOf sm nodeMap frameMap L ([], [])
    (by simp)
  have hj := jget_of_mem_nodup _ _ _ hnd hmem
  rw [groupFold_sets] at hj
  have hbase : jget (([], []) : List (String × SetData) ×
      List (ExtractedComponent α)).1 sid = none := rfl
  rw [hbase] at hj
  cases hsm : setMembers sm L sid with
  | nil =>
    rw [hsm] at hj
    exact Option.noConfusion hj
  | cons m ms =>
    rw [hsm] at hj
    dsimp only at hj
    exact ⟨m, ms, rfl, (Option.some.inj hj).symm⟩

theorem setToComponents_entry {α : Type} (styleOf : FigmaNode → α)
    (sm : List (String × SetMeta)) (nodeMap : List (String × FigmaNode))
    (frameMap : List (String × String)) (L : List (String × CompMeta))
    (sid : String) (d : SetData)
    (hmem : (sid, d) ∈ (L.foldl (groupStep styleOf sm nodeMap frameMap)
      (([], []) : List (String × SetData) × List (ExtractedComponent α))).1) :
    ∃ m ms comp, setMembers sm L sid = m :: ms ∧
      setToComponents styleOf nodeMap frameMap (sid, d) = [comp] ∧
      comp.nodeId = m.1 ∧
      comp.variants = (m :: ms).map (fun x => x.2.name) ∧
      comp.name = d.meta.name ∧
      startsWithDot comp.name = false := by
  obtain ⟨m, ms, hS, hd⟩ := fold_entry_char styleOf sm nodeMap frameMap L sid d hmem
  have hpriv := setMembers_private_false sm L sid m ms hS
  have hmdot : startsWithDot m.2.name = false := (setMembers_flags sm L sid m
    (by rw [hS]; exact List.mem_cons_self _ _)).2.1
  have hmetadot : startsWithDot d.meta.name = false := by
    rw [hd]
    cases hsm2 : jget sm sid with
    | none =>
      dsimp only [Option.getD]
      exact startsWithDot_fallback _ hmdot
    | some msm =>
      dsimp only [Option.getD]
      rw [setIsPrivate, hsm2] at hpriv
      simpa using hpriv
  refine ⟨m, ms, ⟨d.meta.name, d.meta.description, d.variants,
    ((lastGet nodeMap sid).map mkProps).getD [], some d.meta.name,
    d.variantNodeIds.headD sid, (lastGet nodeMap sid).map styleOf,
    lastGet frameMap sid⟩, hS, ?_, ?_, ?_, rfl, hmetadot⟩
  · simp only [setToComponents]
    rw [if_neg (by simp [hmetadot])]
  · show d.variantNodeIds.headD sid = m.1
    rw [hd]
    rfl
  · show d.variants = (m :: ms).map (fun x => x.2.name)
    rw [hd]

theorem flatMap_eq_of_unique {β X : Type} (l : List (String × β))
    (g : String × β → List X) (hnd : (l.map Prod.fst).Nodup) (sid : String)
    (d : β) (hmem : (sid, d) ∈ l)
    (hother : ∀ kd ∈ l, kd.1 ≠ sid → g kd = []) :
    l.flatMap g = g (sid, d) := by
  induction l with
  | nil => exact absurd hmem (List.not_mem_nil _)
  | cons kd rest ih =>
    rw [List.flatMap_cons]
    have hnd2 : (rest.map Prod.fst).Nodup :=
      (List.nodup_cons.1 (by simpa using hnd)).2
    have hhead : kd.1 ∉ rest.map Prod.fst :=
      (List.nodup_cons.1 (by simpa using hnd)).1
    rcases List.mem_cons.1 hmem with h | h
    · subst h
      have hrest : rest.flatMap g = [] := by
        rw [List.flatMap_eq_nil_iff]
        intro kd2 hkd2
        apply hother kd2 (List.mem_cons_of_mem _ hkd2)
        intro hc
        apply hhead
        rw [← hc]
        exact List.mem_map.2 ⟨kd2, hkd2, rfl⟩
      rw [hrest, List.append_nil]
    · have hne : kd.1 ≠ sid := by
        intro hc
        apply hhead
        rw [hc]
        exact List.mem_map.2 ⟨(sid, d), h, rfl⟩
      rw [hother kd (List.mem_cons_self _ _) hne, List.nil_append]
      exact ih hnd2 h (fun kd2 hkd2 => hother kd2 (List.mem_cons_of_mem _ hkd2))

theorem buildComponents_eq {α : Type} (styleOf : FigmaNode → α)
    (doc : FigmaNode) (L : List (String × CompMeta))
    (sm : List (String × SetMeta)) :
    buildComponents styleOf doc L sm =
      standComponents styleOf (buildNodeMap doc) (buildFrameMap doc) L ++
      (L.foldl (groupStep styleOf sm (buildNodeMap doc) (buildFrameMap doc))
        ([], [])).1.flatMap
        (setToComponents styleOf (buildNodeMap doc) (buildFrameMap doc)) := by
  simp only [buildComponents]
  rw [groupFold_stands styleOf sm (buildNodeMap doc) (buildFrameMap doc) L
    ([], [])]
  rfl

theorem filter_flatMap {β X : Type} (l : List β) (g : β → List X)
    (p : X → Bool) :
    (l.flatMap g).filter p = l.flatMap (fun x => (g x).filter p) := by
  induction l with
  | nil => rfl
  | cons x xs ih =>
    rw [List.flatMap_cons, List.flatMap_cons, List.filter_append, ih]

/-! ## Claim C4: variant grouping -/

/-- Claim C4: when the component metadata contains at least one non-private
record of a (non-private) variant set `sid`, the extracted component list
contains exactly one component whose representative node id is the first
member's node id; that component's `variants` lists each sibling's full
name, its length is the number of grouped records, and the representative
node id is not the set container's id (whenever the two ids differ). -/
theorem extractComponents_variant_grouping {α : Type} (styleOf : FigmaNode → α)
    (lc : String → String → Bool)
    (doc : FigmaNode) (L : List (String × CompMeta))
    (sm : List (String × SetMeta)) (sid : String) (e : String × CompMeta)
    (es : List (String × CompMeta)) (hnodup : (L.map Prod.fst).Nodup)
    (hS : setMembers sm L sid = e :: es) :
    (((extractComponents styleOf lc doc L sm).1.filter
        (fun c => c.nodeId == e.1)).length = 1) ∧
    (∀ c ∈ (extractComponents styleOf lc doc L sm).1, c.nodeId = e.1 →
      c.variants = (e :: es).map (fun x => x.2.name) ∧
      c.variants.length = (e :: es).length ∧
      (e.1 ≠ sid → c.nodeId ≠ sid)) := by
  have he_mem : e ∈ setMembers sm L sid := by
    rw [hS]; exact List.mem_cons_self _ _
  obtain ⟨heL, hedot, hecs⟩ := setMembers_flags sm L sid e he_mem
  have hnd := groupFold_keys_nodup styleOf sm (buildNodeMap doc)
    (buildFrameMap doc) L ([], []) (by simp)
  have hjget : jget (L.foldl (groupStep styleOf sm (buildNodeMap doc)
      (buildFrameMap doc)) ([], [])).1 sid =
      some ⟨(jget sm sid).getD (fallbackSetMeta e.2.name),
        (e :: es).map (fun x => x.2.name), (e :: es).map Prod.fst⟩ := by
    rw [groupFold_sets]
    have hbase : jget (([], []) : List (String × SetData) ×
        List (ExtractedComponent α)).1 sid = none := rfl
    rw [hbase, hS]
  have hmem := mem_of_jget _ _ _ hjget
  obtain ⟨m, ms, comp, hS2, hsingle, hnodeId, hvars, hname, hnamedot⟩ :=
    setToComponents_entry styleOf sm (buildNodeMap doc) (buildFrameMap doc)
      L sid _ hmem
  obtain ⟨hm, hms⟩ := List.cons_eq_cons.1 (hS.symm.trans hS2)
  subst hm; subst hms
  have hinj := List.inj_on_of_nodup_map hnodup
  have hother : ∀ kd ∈ (L.foldl (groupStep styleOf sm (buildNodeMap doc)
      (buildFrameMap doc)) ([], [])).1, kd.1 ≠ sid →
      ((setToComponents styleOf (buildNodeMap doc) (buildFrameMap doc) kd).filter
        (fun c => c.nodeId == e.1)) = [] := by
    intro kd hkd hne
    obtain ⟨m2, ms2, comp2, hS3, hsingle2, hnode2, _, _, _⟩ :=
      setToComponents_entry styleOf sm (buildNodeMap doc) (buildFrameMap doc)
        L kd.1 kd.2 (by rwa [Prod.mk.eta])
    rw [hsingle2]
    rw [List.filter_eq_nil_iff]
    intro c hc
    have hceq : c = comp2 := by simpa using hc
    subst hceq
    rw [hnode2]
    simp only [beq_iff_eq, ne_eq]
    intro hc2
    have hm2mem : m2 ∈ setMembers sm L kd.1 := by
      rw [hS3]; exact List.mem_cons_self _ _
    obtain ⟨hm2L, _, hm2cs⟩ := setMembers_flags sm L kd.1 m2 hm2mem
    have : m2 = e := hinj hm2L heL hc2
    subst this
    rw [hm2cs] at hecs
    exact hne (Option.some.inj hecs)
  have hstand : ((standComponents styleOf (buildNodeMap doc)
      (buildFrameMap doc) L).filter (fun c => c.nodeId == e.1)) = [] := by
    rw [List.filter_eq_nil_iff]
    intro c hc
    rw [standComponents] at hc
    obtain ⟨e2, he2, hfe⟩ := List.mem_filterMap.1 hc
    by_cases hcond : (!(startsWithDot e2.2.name) &&
        (e2.2.componentSetId == none)) = true
    · rw [if_pos hcond] at hfe
      have hceq : c = mkStandalone styleOf (buildNodeMap doc)
          (buildFrameMap doc) e2.1 e2.2 := (Option.some.inj hfe).symm
      subst hceq
      show ¬ ((mkStandalone styleOf (buildNodeMap doc) (buildFrameMap doc)
        e2.1 e2.2).nodeId == e.1) = true
      simp only [mkStandalone, beq_iff_eq]
      intro hc2
      have : e2 = e := hinj he2 heL hc2
      subst this
      simp only [Bool.and_eq_true] at hcond
      rw [hecs] at hcond
      simpa using hcond.2
    · rw [if_neg hcond] at hfe
      exact Option.noConfusion hfe
  have hbuildfilter : ((buildComponents styleOf doc L sm).filter
      (fun c => c.nodeId == e.1)) = [comp] := by
    rw [buildComponents_eq, List.filter_append, hstand, List.nil_append,
      filter_flatMap,
      flatMap_eq_of_unique _ _ hnd sid _ hmem hother, hsingle]
    rw [List.filter_cons]
    rw [if_pos (by rw [hnodeId]; simp)]
    rfl
  have hperm : ((extractComponents styleOf lc doc L sm).1).Perm
      (buildComponents styleOf doc L sm) := List.mergeSort_perm _ _
  constructor
  · rw [(hperm.filter _).length_eq, hbuildfilter]
    rfl
  · intro c hc hcnode
    have hcb : c ∈ buildComponents styleOf doc L sm := hperm.mem_iff.1 hc
    have hcf : c ∈ ((buildComponents styleOf doc L sm).filter
        (fun c => c.nodeId == e.1)) :=
      List.mem_filter.2 ⟨hcb, by simp [hcnode]⟩
    rw [hbuildfilter] at hcf
    have hceq := List.mem_singleton.1 hcf
    subst hceq
    refine ⟨hvars, ?_, ?_⟩
    · rw [hvars, List.length_map]
    · intro hne
      rw [hnodeId]
      exact hne

/-! ## Claim C5: private components are excluded -/

/-- Claim C5: no component whose name starts with the private-prefix
character, and no member of a variant set whose set name starts with it,
ever appears in the extraction output: every output component and every
entry of every variants list has a non-private name, and the node id of a
private entry (private name, or member of a private set) is never used as
any output component's representative node id. -/
theorem extractComponents_private_excluded {α : Type} (styleOf : FigmaNode → α)
    (lc : String → String → Bool)
    (doc : FigmaNode) (L : List (String × CompMeta))
    (sm : List (String × SetMeta)) (hnodup : (L.map Prod.fst).Nodup) :
    (∀ c ∈ (extractComponents styleOf lc doc L sm).1,
      startsWithDot c.name = false ∧
      ∀ v ∈ c.variants, startsWithDot v = false) ∧
    (∀ e ∈ L, privateEntry sm e →
      ∀ c ∈ (extractComponents styleOf lc doc L sm).1, c.nodeId ≠ e.1) := by
  have hnd := groupFold_keys_nodup styleOf sm (buildNodeMap doc)
    (buildFrameMap doc) L ([], []) (by simp)
  have hinj := List.inj_on_of_nodup_map hnodup
  have hperm : ((extractComponents styleOf lc doc L sm).1).Perm
      (buildComponents styleOf doc L sm) := List.mergeSort_perm _ _
  have hchar : ∀ c ∈ buildComponents styleOf doc L sm,
      (∃ e2 ∈ L, startsWithDot e2.2.name = false ∧
        e2.2.componentSetId = none ∧ c.name = e2.2.name ∧ c.variants = [] ∧
        c.nodeId = e2.1) ∨
      (∃ sid2 m2 ms2, setMembers sm L sid2 = m2 :: ms2 ∧
        startsWithDot c.name = false ∧
        c.variants = (m2 :: ms2).map (fun x => x.2.name) ∧
        c.nodeId = m2.1) := by
    intro c hc
    rw [buildComponents_eq] at hc
    rcases List.mem_append.1 hc with hc | hc
    · left
      rw [standComponents] at hc
      obtain ⟨e2, he2, hfe⟩ := List.mem_filterMap.1 hc
      by_cases hcond : (!(startsWithDot e2.2.name) &&
          (e2.2.componentSetId == none)) = true
      · rw [if_pos hcond] at hfe
        have hceq : c = mkStandalone styleOf (buildNodeMap doc)
            (buildFrameMap doc) e2.1 e2.2 := (Option.some.inj hfe).symm
        simp only [Bool.and_eq_true, Bool.not_eq_true', beq_iff_eq] at hcond
        exact ⟨e2, he2, hcond.1, hcond.2, by rw [hceq]; rfl,
          by rw [hceq]; rfl, by rw [hceq]; rfl⟩
      · rw [if_neg hcond] at hfe
        exact Option.noConfusion hfe
    · right
      obtain ⟨kd, hkd, hckd⟩ := List.mem_flatMap.1 hc
      obtain ⟨m2, ms2, comp2, hS3, hsingle2, hnode2, hvars2, hname2, hdot2⟩ :=
        setToComponents_entry styleOf sm (buildNodeMap doc) (buildFrameMap doc)
          L kd.1 kd.2 (by rwa [Prod.mk.eta])
      rw [hsingle2] at hckd
      have hceq := List.mem_singleton.1 hckd
      subst hceq
      exact ⟨kd.1, m2, ms2, hS3, hdot2, hvars2, hnode2⟩
  constructor
  · intro c hc
    rcases hchar c (hperm.mem_iff.1 hc) with
      ⟨e2, _, hdot, _, hname, hvar, _⟩ | ⟨sid2, m2, ms2, hS3, hdot, hvar, _⟩
    · rw [hname, hvar]
      exact ⟨hdot, by intro v hv; exact absurd hv (List.not_mem_nil _)⟩
    · refine ⟨hdot, ?_⟩
      rw [hvar]
      intro v hv
      obtain ⟨m3, hm3, hveq⟩ := List.mem_map.1 hv
      obtain ⟨_, hm3dot, _⟩ := setMembers_flags sm L sid2 m3 (hS3 ▸ hm3)
      rw [← hveq]
      exact hm3dot
  · intro e heL hpe c hc hcnode
    rcases hchar c (hperm.mem_iff.1 hc) with
      ⟨e2, he2, hdot, hcsnone, _, _, hnid⟩ |
      ⟨sid2, m2, ms2, hS3, _, _, hnid⟩
    · rw [hnid] at hcnode
      have : e2 = e := hinj he2 heL hcnode
      subst this
      rcases hpe with hpe | ⟨sid3, hsid3, _⟩
      · rw [hdot] at hpe
        exact Bool.noConfusion hpe
      · rw [hcsnone] at hsid3
        exact Option.noConfusion hsid3
    · rw [hnid] at hcnode
      have hm2mem : m2 ∈ setMembers sm L sid2 := by
        rw [hS3]; exact List.mem_cons_self _ _
      obtain ⟨hm2L, hm2dot, hm2cs⟩ := setMembers_flags sm L sid2 m2 hm2mem
      have : m2 = e := hinj hm2L heL hcnode
      subst this
      have hprivf := setMembers_private_false sm L sid2 _ _ hS3
      rcases hpe with hpe | ⟨sid3, hsid3, hsid3p⟩
      · rw [hm2dot] at hpe
        exact Bool.noConfusion hpe
      · rw [hm2cs] at hsid3
        have : sid2 = sid3 := Option.some.inj hsid3
        subst this
        rw [hprivf] at hsid3p
        exact Bool.noConfusion hsid3p

/-- Witness for C4: three same-set-id records are merged into exactly one
component keyed by the first record's node id. -/
theorem extractComponents_variant_grouping_witness :
    ((extractComponents (α := Unit) (fun _ => ()) localeLE
        (FigmaNode.node "d" "Doc" [] [])
        [("n1", ⟨"Button/A", "", some "set1"⟩),
         ("n2", ⟨"Button/B", "", some "set1"⟩),
         ("n3", ⟨"Button/C", "", some "set1"⟩)]
        [("set1", ⟨"Button", ""⟩)]).1.filter
        (fun c => c.nodeId == "n1")).length = 1 :=
  (extractComponents_variant_grouping (fun _ => ()) localeLE
      (FigmaNode.node "d" "Doc" [] [])
      [("n1", ⟨"Button/A", "", some "set1"⟩),
       ("n2", ⟨"Button/B", "", some "set1"⟩),
       ("n3", ⟨"Button/C", "", some "set1"⟩)]
      [("set1", ⟨"Button", ""⟩)] "set1"
      ("n1", ⟨"Button/A", "", some "set1"⟩)
      [("n2", ⟨"Button/B", "", some "set1"⟩),
       ("n3", ⟨"Button/C", "", some "set1"⟩)]
      (by decide) (by decide)).1

/-- Witness for C5: the node id of a private-named component never appears
in the output. -/
theorem extractComponents_private_excluded_witness :
    ((extractComponents (α := Unit) (fun _ => ()) localeLE
        (FigmaNode.node "d" "Doc" [] [])
        [("p1", ⟨".Secret", "", none⟩), ("n1", ⟨"Card", "", none⟩)]
        []).1.filter (fun c => c.nodeId == "p1")) = [] := by
  rw [List.filter_eq_nil_iff]
  intro c hc
  have h := (extractComponents_private_excluded (fun _ => ()) localeLE
      (FigmaNode.node "d" "Doc" [] [])
      [("p1", ⟨".Secret", "", none⟩), ("n1", ⟨"Card", "", none⟩)]
      [] (by decide)).2
    ("p1", ⟨".Secret", "", none⟩) (by decide) (Or.inl (by decide)) c hc
  simpa using h

/-! ## Color math: numeric facts (claims C1, C2, C8) -/

theorem jsRound_intCast (n : ℤ) : jsRound ((n : ℝ)) = n := by
  rw [jsRound, Int.floor_eq_iff]
  constructor
  · linarith
  · linarith

theorem srgbLin_nonneg (a : ℝ) (h : 0 ≤ a) : 0 ≤ srgbLin a := by
  rw [srgbLin]
  split
  · positivity
  · exact Real.rpow_nonneg (by positivity) _

theorem srgbLin_mono (a b : ℝ) (ha : 0.04045 < a) (hab : a ≤ b) :
    srgbLin a ≤ srgbLin b := by
  rw [srgbLin, srgbLin, if_neg (not_le.2 ha),
    if_neg (not_le.2 (lt_of_lt_of_le ha hab))]
  apply Real.rpow_le_rpow
  · positivity
  · apply div_le_div_of_nonneg_right ?_ (by norm_num)
    linarith
  · norm_num

theorem srgbLin_le_one (b : ℝ) (hb1 : 0.04045 < b) (hb2 : b ≤ 1) :
    srgbLin b ≤ 1 := by
  rw [srgbLin, if_neg (not_le.2 hb1)]
  apply Real.rpow_le_one (by positivity) ?_ (by norm_num)
  rw [div_le_one (by norm_num)]
  linarith

theorem srgb128_lb : (11 : ℝ)/60 < srgbLin (128/255) := by
  rw [srgbLin, if_neg (by norm_num)]
  set x : ℝ := ((128 : ℝ)/255 + 0.055)/1.055 with hx
  have hxpos : (0 : ℝ) < x := by rw [hx]; norm_num
  have hxle : x ≤ 1 := by rw [hx]; norm_num
  have h25 : x ^ ((5 : ℝ)/2) ≤ x ^ (2.4 : ℝ) :=
    Real.rpow_le_rpow_of_exponent_ge hxpos hxle (by norm_num)
  have hsplit : x ^ ((5 : ℝ)/2) = x ^ 2 * Real.sqrt x := by
    rw [show (5 : ℝ)/2 = 2 + 1/2 by norm_num, Real.rpow_add hxpos,
      Real.sqrt_eq_rpow]
    congr 1
    rw [show ((2 : ℝ)) = ((2 : ℕ) : ℝ) by norm_num, Real.rpow_natCast]
  have hsqrt : (726 : ℝ)/1000 < Real.sqrt x := by
    apply (Real.lt_sqrt (by norm_num)).2
    rw [hx]
    norm_num
  have hx2 : (11 : ℝ)/60 < x ^ 2 * (726/1000) := by rw [hx]; norm_num
  have hchain : x ^ 2 * (726/1000) ≤ x ^ 2 * Real.sqrt x := by
    apply mul_le_mul_of_nonneg_left (le_of_lt hsqrt) (by positivity)
  calc (11 : ℝ)/60 < x ^ 2 * (726/1000) := hx2
    _ ≤ x ^ 2 * Real.sqrt x := hchain
    _ = x ^ ((5 : ℝ)/2) := hsplit.symm
    _ ≤ x ^ (2.4 : ℝ) := h25

theorem srgb128_ub : srgbLin ((128 : ℝ)/255) ≤ 1/2 := by
  rw [srgbLin, if_neg (by norm_num)]
  set x : ℝ := ((128 : ℝ)/255 + 0.055)/1.055 with hx
  have hxpos : (0 : ℝ) < x := by rw [hx]; norm_num
  have hxle : x ≤ 1 := by rw [hx]; norm_num
  have h2 : x ^ (2.4 : ℝ) ≤ x ^ ((2 : ℝ)) :=
    Real.rpow_le_rpow_of_exponent_ge hxpos hxle (by norm_num)
  have hx2 : x ^ ((2 : ℝ)) = x ^ 2 := by
    rw [show ((2 : ℝ)) = ((2 : ℕ) : ℝ) by norm_num, Real.rpow_natCast]
  calc x ^ (2.4 : ℝ) ≤ x ^ ((2 : ℝ)) := h2
    _ = x ^ 2 := hx2
    _ ≤ 1/2 := by rw [hx]; norm_num

theorem wcag_gray (w : ℕ) :
    wcagLuminance ⟨w, w, w⟩ = srgbLin ((w : ℝ)/255) := by
  rw [wcagLuminance]
  ring

theorem wcag_nonneg (c : RGB) : 0 ≤ wcagLuminance c := by
  rw [wcagLuminance]
  have h1 := srgbLin_nonneg ((c.r : ℝ)/255) (by positivity)
  have h2 := srgbLin_nonneg ((c.g : ℝ)/255) (by positivity)
  have h3 := srgbLin_nonneg ((c.b : ℝ)/255) (by positivity)
  have : (0.2126 : ℝ) * srgbLin ((c.r : ℝ)/255) ≥ 0 := by positivity
  have : (0.7152 : ℝ) * srgbLin ((c.g : ℝ)/255) ≥ 0 := by positivity
  have : (0.0722 : ℝ) * srgbLin ((c.b : ℝ)/255) ≥ 0 := by positivity
  positivity

theorem contrastRatio_self (c : RGB) : contrastRatio c c = 1 := by
  rw [contrastRatio]
  have h := wcag_nonneg c
  simp only [max_self, min_self]
  rw [div_self (by linarith)]

theorem grayContrast_lt (w : ℕ) (h1 : 128 ≤ w) (h2 : w ≤ 255) :
    contrastRatio ⟨w, w, w⟩ ⟨128, 128, 128⟩ < 4.5 := by
  rw [contrastRatio, wcag_gray, wcag_gray]
  have hc128 : ((128 : ℕ) : ℝ)/255 = (128 : ℝ)/255 := by norm_num
  rw [hc128]
  have hwlb : (128 : ℝ)/255 ≤ (w : ℝ)/255 := by
    apply div_le_div_of_nonneg_right ?_ (by norm_num)
    exact_mod_cast h1
  have hwub : (w : ℝ)/255 ≤ 1 := by
    rw [div_le_one (by norm_num)]
    exact_mod_cast h2
  have hmono : srgbLin ((128 : ℝ)/255) ≤ srgbLin ((w : ℝ)/255) :=
    srgbLin_mono _ _ (by norm_num) hwlb
  have hle1 : srgbLin ((w : ℝ)/255) ≤ 1 :=
    srgbLin_le_one _ (lt_of_lt_of_le (by norm_num) hwlb) hwub
  have hlb := srgb128_lb
  rw [max_eq_left hmono, min_eq_right hmono]
  rw [div_lt_iff₀ (by linarith)]
  nlinarith

theorem rgbToHsl_gray : rgbToHsl ⟨128, 128, 128⟩ = ⟨0, 0, (128 : ℝ)/255⟩ := by
  rw [rgbToHsl]
  have hc : (((128 : ℕ) : ℝ)) = (128 : ℝ) := by norm_num
  dsimp only
  rw [hc, max_self, max_self, min_self, min_self, if_pos rfl]
  simp only [HSL.mk.injEq]
  refine ⟨trivial, trivial, by ring⟩

theorem bgIsLight_gray :
    decide ((1 : ℝ)/2 < wcagLuminance ⟨128, 128, 128⟩) = false := by
  apply decide_eq_false
  rw [wcag_gray]
  intro h
  have hub := srgb128_ub
  have hc : (((128 : ℕ) : ℝ))/255 = (128 : ℝ)/255 := by norm_num
  rw [hc] at h
  linarith

theorem gray_candidate (mid : ℝ) (h1 : 1/2 ≤ mid) (h2 : mid < 1) :
    ∃ v : ℕ, 128 ≤ v ∧ v ≤ 255 ∧
      rgbToHex (hslToRgb ⟨0, 0, mid⟩) = ⟨v, v, v⟩ := by
  rw [hslToRgb]
  dsimp only
  rw [if_pos rfl]
  set n : ℤ := jsRound (mid * 255) with hn
  have hn1 : (128 : ℤ) ≤ n := by
    rw [hn, jsRound]
    rw [Int.le_floor]
    push_cast
    linarith
  have hn2 : n ≤ 255 := by
    rw [hn, jsRound]
    have : (⌊mid * 255 + 1/2⌋ : ℤ) < 256 := by
      rw [Int.floor_lt]
      push_cast
      linarith
    omega
  refine ⟨n.toNat, ?_, ?_, ?_⟩
  · omega
  · omega
  · rw [rgbToHex]
    have hclamp : clamp255 ((n : ℤ) : ℝ) = n.toNat := by
      rw [clamp255, jsRound_intCast]
      rw [min_eq_right hn2, max_eq_right (by omega : (0:ℤ) ≤ n)]
    rw [hclamp]

theorem stepGray (lo : ℝ) (hlo0 : 0 ≤ lo) (hlo1 : lo < 1) :
    searchStep ⟨0, 0, (128 : ℝ)/255⟩ ⟨128, 128, 128⟩ (4.5) (3.0) false
      ⟨lo, 1, ⟨128, 128, 128⟩, ⊥⟩ = ⟨(lo + 1)/2, 1, ⟨128, 128, 128⟩, ⊥⟩ := by
  rw [searchStep]
  dsimp only
  obtain ⟨v, hv1, hv2, hcand⟩ := gray_candidate ((lo + 1)/2)
    (by linarith) (by linarith)
  rw [hcand]
  have htext := grayContrast_lt v hv1 hv2
  have hval : ¬ ((4.5 : ℝ) ≤ contrastRatio ⟨v, v, v⟩ ⟨128, 128, 128⟩ ∧
      (3.0 : ℝ) ≤ contrastRatio ⟨v, v, v⟩ white) :=
    fun hcontra => absurd hcontra.1 (not_le.2 htext)
  rw [if_pos htext]
  simp only [Bool.false_eq_true, if_false]
  rw [if_neg hval]

theorem iterGray : ∀ n : ℕ,
    (searchStep ⟨0, 0, (128 : ℝ)/255⟩ ⟨128, 128, 128⟩ (4.5) (3.0) false)^[n]
      ⟨0, 1, ⟨128, 128, 128⟩, ⊥⟩ =
    ⟨1 - (1/2 : ℝ)^n, 1, ⟨128, 128, 128⟩, ⊥⟩ := by
  intro n
  induction n with
  | zero =>
    simp only [Function.iterate_zero, id_eq]
    rw [show (1 - (1/2 : ℝ)^0) = 0 by norm_num]
  | succ n ih =>
    rw [Function.iterate_succ_apply', ih]
    have hle : (1/2 : ℝ)^n ≤ 1 := by
      apply pow_le_one₀ (by norm_num) (by norm_num)
    have hpos : (0 : ℝ) < (1/2 : ℝ)^n := by positivity
    rw [stepGray _ (by linarith) (by linarith)]
    rw [show ((1 - (1/2 : ℝ)^n) + 1)/2 = 1 - (1/2 : ℝ)^(n + 1) by
      rw [pow_succ]; ring]

theorem contrast_gray_self_lt :
    ¬ ((4.5 : ℝ) ≤ contrastRatio ⟨128, 128, 128⟩ ⟨128, 128, 128⟩ ∧
       (3.0 : ℝ) ≤ contrastRatio ⟨128, 128, 128⟩ white) := by
  intro h
  have h1 := h.1
  rw [contrastRatio_self] at h1
  linarith

theorem adjust_gray :
    adjustBrandForContrast ⟨128, 128, 128⟩ ⟨128, 128, 128⟩ (4.5) (3.0) =
      ⟨128, 128, 128⟩ := by
  rw [adjustBrandForContrast, if_neg contrast_gray_self_lt]
  dsimp only
  rw [rgbToHsl_gray, bgIsLight_gray, iterGray 30]

theorem searchStep_bestHex (hsl : HSL) (bg : RGB) (mt mb : ℝ) (bl : Bool)
    (st : SearchState) :
    (searchStep hsl bg mt mb bl st).bestHex = st.bestHex ∨
    feasible bg mt mb (searchStep hsl bg mt mb bl st).bestHex := by
  rw [searchStep]
  dsimp only
  by_cases hval : mt ≤ contrastRatio
      (rgbToHex (hslToRgb ⟨hsl.h, hsl.s, (st.lo + st.hi)/2⟩)) bg ∧
      mb ≤ contrastRatio
      (rgbToHex (hslToRgb ⟨hsl.h, hsl.s, (st.lo + st.hi)/2⟩)) white
  · rw [if_pos hval]
    by_cases hsc : st.bestScore <
        (((-|(st.lo + st.hi)/2 - hsl.l|) : ℝ) : EReal)
    · rw [if_pos hsc]
      right
      split
      · split
        · exact hval
        · exact hval
      · split
        · exact hval
        · split
          · exact hval
          · exact hval
    · rw [if_neg hsc]
      left
      split
      · split <;> rfl
      · split
        · rfl
        · split <;> rfl
  · rw [if_neg hval]
    left
    split
    · split <;> rfl
    · split
      · rfl
      · split <;> rfl

theorem iterate_bestHex (hsl : HSL) (bg : RGB) (mt mb : ℝ) (bl : Bool) :
    ∀ (n : ℕ) (st : SearchState),
      ((searchStep hsl bg mt mb bl)^[n] st).bestHex = st.bestHex ∨
      feasible bg mt mb (((searchStep hsl bg mt mb bl)^[n] st).bestHex) := by
  intro n
  induction n with
  | zero => intro st; left; rfl
  | succ n ih =>
    intro st
    rw [Function.iterate_succ_apply]
    rcases searchStep_bestHex hsl bg mt mb bl st with h | h
    · rcases ih (searchStep hsl bg mt mb bl st) with h2 | h2
      · left; rw [h2, h]
      · right; exact h2
    · rcases ih (searchStep hsl bg mt mb bl st) with h2 | h2
      · right; rw [h2]; exact h
      · right; exact h2

theorem adjust_of_feasible (r bg : RGB) (mt mb : ℝ)
    (h : feasible bg mt mb r) :
    adjustBrandForContrast r bg mt mb = r := by
  rw [feasible] at h
  rw [adjustBrandForContrast, if_pos h]

/-- Claim C8: `adjustBrandForContrast` is idempotent for every seed,
background, and pair of thresholds: applying it to its own result yields
the same value. -/
theorem adjustBrandForContrast_idempotent (brand bg : RGB) (mt mb : ℝ) :
    adjustBrandForContrast (adjustBrandForContrast brand bg mt mb) bg mt mb =
      adjustBrandForContrast brand bg mt mb := by
  by_cases h0 : mt ≤ contrastRatio brand bg ∧ mb ≤ contrastRatio brand white
  · have hinner : adjustBrandForContrast brand bg mt mb = brand := by
      rw [adjustBrandForContrast, if_pos h0]
    rw [hinner]
    exact hinner
  · have hinner : adjustBrandForContrast brand bg mt mb =
        ((searchStep (rgbToHsl brand) bg mt mb
          (decide ((1 : ℝ)/2 < wcagLuminance bg)))^[30]
          ⟨0, 1, brand, ⊥⟩).bestHex := by
      rw [adjustBrandForContrast, if_neg h0]
    rcases iterate_bestHex (rgbToHsl brand) bg mt mb
        (decide ((1 : ℝ)/2 < wcagLuminance bg)) 30 ⟨0, 1, brand, ⊥⟩ with h | h
    · have hb : adjustBrandForContrast brand bg mt mb = brand := by
        rw [hinner]; exact h
      rw [hb]
      exact hb
    · rw [← hinner] at h
      exact adjust_of_feasible _ bg mt mb h

/-- Amended claim C1: for every seed and background, the adjusted result
satisfies both contrast constraints, or the function returns the seed
unchanged — which happens both when the seed already satisfied both
constraints and when the 30-iteration search found no feasible midpoint. -/
theorem adjustBrandForContrast_feasible_or_seed (brand bg : RGB) :
    ((4.5 : ℝ) ≤ contrastRatio
        (adjustBrandForContrast brand bg (4.5) (3.0)) bg ∧
     (3.0 : ℝ) ≤ contrastRatio
        (adjustBrandForContrast brand bg (4.5) (3.0)) white) ∨
    adjustBrandForContrast brand bg (4.5) (3.0) = brand := by
  by_cases h0 : (4.5 : ℝ) ≤ contrastRatio brand bg ∧
      (3.0 : ℝ) ≤ contrastRatio brand white
  · right
    rw [adjustBrandForContrast, if_pos h0]
  · have hinner : adjustBrandForContrast brand bg (4.5) (3.0) =
        ((searchStep (rgbToHsl brand) bg (4.5) (3.0)
          (decide ((1 : ℝ)/2 < wcagLuminance bg)))^[30]
          ⟨0, 1, brand, ⊥⟩).bestHex := by
      rw [adjustBrandForContrast, if_neg h0]
    rcases iterate_bestHex (rgbToHsl brand) bg (4.5) (3.0)
        (decide ((1 : ℝ)/2 < wcagLuminance bg)) 30 ⟨0, 1, brand, ⊥⟩ with h | h
    · right
      rw [hinner]
      exact h
    · left
      rw [hinner]
      exact h

/-- Counterexample to claim C1 as stated: for the mid-gray seed on the
identical mid-gray background, the returned color (the seed itself, since
no midpoint of the search is feasible) fails the 4.5:1 text-contrast
constraint, and the seed did not already satisfy both constraints. -/
theorem adjust_claim1_counterexample :
    ¬ (((4.5 : ℝ) ≤ contrastRatio
          (adjustBrandForContrast ⟨128, 128, 128⟩ ⟨128, 128, 128⟩ (4.5) (3.0))
          ⟨128, 128, 128⟩ ∧
        (3.0 : ℝ) ≤ contrastRatio
          (adjustBrandForContrast ⟨128, 128, 128⟩ ⟨128, 128, 128⟩ (4.5) (3.0))
          white) ∨
       (adjustBrandForContrast ⟨128, 128, 128⟩ ⟨128, 128, 128⟩ (4.5) (3.0) =
          ⟨128, 128, 128⟩ ∧
        (4.5 : ℝ) ≤ contrastRatio ⟨128, 128, 128⟩ ⟨128, 128, 128⟩ ∧
        (3.0 : ℝ) ≤ contrastRatio ⟨128, 128, 128⟩ white)) := by
  intro h
  rcases h with ⟨h1, _⟩ | ⟨_, h1, _⟩
  · rw [adjust_gray, contrastRatio_self] at h1
    linarith
  · rw [contrastRatio_self] at h1
    linarith

theorem searchTrace_succ (hsl : HSL) (bg : RGB) (mt mb : ℝ) (bl : Bool)
    (n : ℕ) (st : SearchState) :
    searchTrace hsl bg mt mb bl (n + 1) st =
      searchEntry hsl st ::
        searchTrace hsl bg mt mb bl n (searchStep hsl bg mt mb bl st) := by
  rw [searchTrace, searchEntry]

theorem searchTrace_append (hsl : HSL) (bg : RGB) (mt mb : ℝ) (bl : Bool) :
    ∀ (n : ℕ) (st : SearchState),
      searchTrace hsl bg mt mb bl (n + 1) st =
        searchTrace hsl bg mt mb bl n st ++
          [searchEntry hsl ((searchStep hsl bg mt mb bl)^[n] st)] := by
  intro n
  induction n with
  | zero =>
    intro st
    rw [searchTrace_succ]
    rfl
  | succ n ih =>
    intro st
    rw [searchTrace_succ hsl bg mt mb bl (n + 1) st,
      ih (searchStep hsl bg mt mb bl st), ← Function.iterate_succ_apply,
      searchTrace_succ hsl bg mt mb bl n st, List.cons_append]

theorem searchTrace_getLast (hsl : HSL) (bg : RGB) (mt mb : ℝ) (bl : Bool)
    (n : ℕ) (st : SearchState) :
    (searchTrace hsl bg mt mb bl (n + 1) st).getLast? =
      some (searchEntry hsl ((searchStep hsl bg mt mb bl)^[n] st)) := by
  rw [searchTrace_append, List.getLast?_concat]

theorem traceGray_infeasible : ∀ (k : ℕ) (lo : ℝ), 0 ≤ lo → lo < 1 →
    ∀ p ∈ searchTrace ⟨0, 0, (128 : ℝ)/255⟩ ⟨128, 128, 128⟩ (4.5) (3.0) false
        k ⟨lo, 1, ⟨128, 128, 128⟩, ⊥⟩,
      ¬ feasible ⟨128, 128, 128⟩ (4.5) (3.0) p.2 := by
  intro k
  induction k with
  | zero =>
    intro lo _ _ p hp
    simp only [searchTrace, List.not_mem_nil] at hp
  | succ k ih =>
    intro lo h0 h1 p hp
    rw [searchTrace_succ] at hp
    rcases List.mem_cons.1 hp with hph | hpt
    · intro hf
      rw [hph, searchEntry] at hf
      dsimp only at hf
      obtain ⟨v, hv1, hv2, hcand⟩ := gray_candidate ((lo + 1)/2)
        (by linarith) (by linarith)
      rw [hcand] at hf
      exact absurd hf.1 (not_le.2 (grayContrast_lt v hv1 hv2))
    · rw [stepGray lo h0 h1] at hpt
      exact ih ((lo + 1)/2) (by linarith) (by linarith) p hpt

theorem white_candidate :
    rgbToHex (hslToRgb ⟨0, 0, 1 - (1/2 : ℝ)^30⟩) = white := by
  rw [hslToRgb]
  dsimp only
  rw [if_pos rfl]
  have hjr : jsRound ((1 - (1/2 : ℝ)^30) * 255) = 255 := by
    rw [jsRound, Int.floor_eq_iff]
    constructor <;> norm_num
  rw [rgbToHex]
  have hclamp : clamp255 (((255 : ℤ) : ℝ)) = 255 := by
    rw [clamp255, jsRound_intCast]
    rfl
  dsimp only
  rw [hjr, hclamp]
  rfl

open Classical in
/-- Counterexample to claim C2 as stated: for the mid-gray seed on the
identical mid-gray background (where the seed fails the initial check), no
midpoint of the 30-iteration search satisfies both constraints, the last
midpoint tried yields the candidate white, yet the function returns the
mid-gray seed — not the last midpoint tried. -/
theorem adjust_claim2_counterexample :
    ¬ ((4.5 : ℝ) ≤ contrastRatio ⟨128, 128, 128⟩ ⟨128, 128, 128⟩ ∧
       (3.0 : ℝ) ≤ contrastRatio ⟨128, 128, 128⟩ white) ∧
    (adjustTrace ⟨128, 128, 128⟩ ⟨128, 128, 128⟩ (4.5) (3.0)).countP
      (fun p => decide (feasible ⟨128, 128, 128⟩ (4.5) (3.0) p.2)) = 0 ∧
    (adjustTrace ⟨128, 128, 128⟩ ⟨128, 128, 128⟩ (4.5) (3.0)).getLast? =
      some (1 - (1/2 : ℝ)^30, white) ∧
    adjustBrandForContrast ⟨128, 128, 128⟩ ⟨128, 128, 128⟩ (4.5) (3.0) =
      ⟨128, 128, 128⟩ ∧
    (⟨128, 128, 128⟩ : RGB) ≠ white := by
  refine ⟨contrast_gray_self_lt, ?_, ?_, adjust_gray, by decide⟩
  · rw [adjustTrace, rgbToHsl_gray, bgIsLight_gray]
    rw [List.countP_eq_zero]
    intro p hp
    have hnf := traceGray_infeasible 30 0 le_rfl (by norm_num) p hp
    simpa using hnf
  · rw [adjustTrace, rgbToHsl_gray, bgIsLight_gray]
    rw [show (30 : ℕ) = 29 + 1 by norm_num]
    rw [searchTrace_getLast, iterGray 29, searchEntry]
    dsimp only
    have hmid : ((1 - (1/2 : ℝ)^29) + 1)/2 = 1 - (1/2 : ℝ)^30 := by
      rw [show ((1/2 : ℝ))^30 = (1/2 : ℝ)^29 * (1/2) from pow_succ _ 29]
      ring
    rw [hmid, white_candidate]

theorem searchStep_best_char (hsl : HSL) (bg : RGB) (mt mb : ℝ) (bl : Bool)
    (st : SearchState) :
    ((searchStep hsl bg mt mb bl st).bestHex = st.bestHex ∧
     (searchStep hsl bg mt mb bl st).bestScore = st.bestScore ∧
     (¬ feasible bg mt mb (searchEntry hsl st).2 ∨
      ¬ st.bestScore < ((-|(searchEntry hsl st).1 - hsl.l| : ℝ) : EReal))) ∨
    (feasible bg mt mb (searchEntry hsl st).2 ∧
     st.bestScore < ((-|(searchEntry hsl st).1 - hsl.l| : ℝ) : EReal) ∧
     (searchStep hsl bg mt mb bl st).bestHex = (searchEntry hsl st).2 ∧
     (searchStep hsl bg mt mb bl st).bestScore =
       ((-|(searchEntry hsl st).1 - hsl.l| : ℝ) : EReal)) := by
  rw [searchStep, searchEntry]
  dsimp only
  by_cases hval : mt ≤ contrastRatio
      (rgbToHex (hslToRgb ⟨hsl.h, hsl.s, (st.lo + st.hi)/2⟩)) bg ∧
      mb ≤ contrastRatio
      (rgbToHex (hslToRgb ⟨hsl.h, hsl.s, (st.lo + st.hi)/2⟩)) white
  · rw [if_pos hval]
    by_cases hsc : st.bestScore <
        (((-|(st.lo + st.hi)/2 - hsl.l|) : ℝ) : EReal)
    · rw [if_pos hsc]
      right
      refine ⟨hval, hsc, ?_, ?_⟩
      · split
        · split <;> rfl
        · split
          · rfl
          · split <;> rfl
      · split
        · split <;> rfl
        · split
          · rfl
          · split <;> rfl
    · rw [if_neg hsc]
      left
      refine ⟨?_, ?_, Or.inr hsc⟩
      · split
        · split <;> rfl
        · split
          · rfl
          · split <;> rfl
      · split
        · split <;> rfl
        · split
          · rfl
          · split <;> rfl
  · rw [if_neg hval]
    left
    refine ⟨?_, ?_, Or.inl hval⟩
    · split
      · split <;> rfl
      · split
        · rfl
        · split <;> rfl
    · split
      · split <;> rfl
      · split
        · rfl
        · split <;> rfl

theorem searchFold_argmin (hsl : HSL) (bg : RGB) (mt mb : ℝ) (bl : Bool)
    (st0 : SearchState) (hbot : st0.bestScore = ⊥) : ∀ k : ℕ,
    ((((searchStep hsl bg mt mb bl)^[k] st0).bestHex = st0.bestHex ∧
      ((searchStep hsl bg mt mb bl)^[k] st0).bestScore = (⊥ : EReal) ∧
      ∀ p ∈ searchTrace hsl bg mt mb bl k st0, ¬ feasible bg mt mb p.2) ∨
     (∃ p0 ∈ searchTrace hsl bg mt mb bl k st0, feasible bg mt mb p0.2 ∧
       ((searchStep hsl bg mt mb bl)^[k] st0).bestHex = p0.2 ∧
       ((searchStep hsl bg mt mb bl)^[k] st0).bestScore =
         ((-|p0.1 - hsl.l| : ℝ) : EReal) ∧
       ∀ p ∈ searchTrace hsl bg mt mb bl k st0, feasible bg mt mb p.2 →
         |p0.1 - hsl.l| ≤ |p.1 - hsl.l|)) := by
  intro k
  induction k with
  | zero =>
    left
    refine ⟨rfl, hbot, ?_⟩
    intro p hp
    simp only [searchTrace, List.not_mem_nil] at hp
  | succ k ih =>
    rw [searchTrace_append, Function.iterate_succ_apply']
    rcases searchStep_best_char hsl bg mt mb bl
        ((searchStep hsl bg mt mb bl)^[k] st0) with
      ⟨hbh, hbs, hreason⟩ | ⟨hfe, hlt, hbh, hbs⟩
    · rcases ih with ⟨ibh, ibs, inone⟩ | ⟨p0, hp0T, hp0f, ibh, ibs, imin⟩
      · left
        refine ⟨hbh.trans ibh, hbs.trans ibs, ?_⟩
        intro p hp
        rcases List.mem_append.1 hp with hpo | hpn
        · exact inone p hpo
        · rw [List.mem_singleton.1 hpn]
          rcases hreason with hnf | hns
          · exact hnf
          · exfalso
            rw [ibs] at hns
            exact hns (EReal.bot_lt_coe _)
      · right
        refine ⟨p0, List.mem_append_left _ hp0T, hp0f, hbh.trans ibh,
          hbs.trans ibs, ?_⟩
        intro p hp hpf
        rcases List.mem_append.1 hp with hpo | hpn
        · exact imin p hpo hpf
        · rw [List.mem_singleton.1 hpn] at hpf ⊢
          rcases hreason with hnf | hns
          · exact absurd hpf hnf
          · rw [ibs] at hns
            have hle := EReal.coe_le_coe_iff.1 (le_of_not_lt hns)
            linarith
    · rcases ih with ⟨ibh, ibs, inone⟩ | ⟨p0, hp0T, hp0f, ibh, ibs, imin⟩
      · right
        refine ⟨searchEntry hsl ((searchStep hsl bg mt mb bl)^[k] st0),
          List.mem_append_right _ (List.mem_singleton_self _),
          hfe, hbh, hbs, ?_⟩
        intro p hp hpf
        rcases List.mem_append.1 hp with hpo | hpn
        · exact absurd hpf (inone p hpo)
        · rw [List.mem_singleton.1 hpn]
      · right
        refine ⟨searchEntry hsl ((searchStep hsl bg mt mb bl)^[k] st0),
          List.mem_append_right _ (List.mem_singleton_self _),
          hfe, hbh, hbs, ?_⟩
        intro p hp hpf
        rw [ibs] at hlt
        have hlt2 := EReal.coe_lt_coe_iff.1 hlt
        rcases List.mem_append.1 hp with hpo | hpn
        · have := imin p hpo hpf
          linarith
        · rw [List.mem_singleton.1 hpn]

/-- Amended claim C2: for every call where the seed fails the initial
contrast check, the function returns a feasible midpoint candidate of the
30-iteration lightness binary search whose midpoint is closest to the
seed's original lightness among all feasible midpoints tried, and when no
midpoint tried is feasible it returns the seed unchanged (not the last
midpoint tried); the embedded function is total, so it never throws. -/
theorem adjustBrandForContrast_best_candidate (brand bg : RGB) (mt mb : ℝ)
    (h0 : ¬ (mt ≤ contrastRatio brand bg ∧ mb ≤ contrastRatio brand white)) :
    (adjustBrandForContrast brand bg mt mb = brand ∧
      ∀ p ∈ adjustTrace brand bg mt mb, ¬ feasible bg mt mb p.2) ∨
    (∃ p0 ∈ adjustTrace brand bg mt mb, feasible bg mt mb p0.2 ∧
      adjustBrandForContrast brand bg mt mb = p0.2 ∧
      ∀ p ∈ adjustTrace brand bg mt mb, feasible bg mt mb p.2 →
        |p0.1 - (rgbToHsl brand).l| ≤ |p.1 - (rgbToHsl brand).l|) := by
  have hinner : adjustBrandForContrast brand bg mt mb =
      ((searchStep (rgbToHsl brand) bg mt mb
        (decide ((1 : ℝ)/2 < wcagLuminance bg)))^[30]
        ⟨0, 1, brand, ⊥⟩).bestHex := by
    rw [adjustBrandForContrast, if_neg h0]
  rw [adjustTrace]
  rcases searchFold_argmin (rgbToHsl brand) bg mt mb
      (decide ((1 : ℝ)/2 < wcagLuminance bg)) ⟨0, 1, brand, ⊥⟩ rfl 30 with
    ⟨hbh, _, hnone⟩ | ⟨p0, hp0T, hp0f, hbh, _, hmin⟩
  · left
    exact ⟨hinner.trans hbh, hnone⟩
  · right
    exact ⟨p0, hp0T, hp0f, hinner.trans hbh, hmin⟩

theorem adjustBrandForContrast_best_candidate_witness :
    (adjustBrandForContrast ⟨128, 128, 128⟩ ⟨128, 128, 128⟩ (4.5) (3.0) =
        ⟨128, 128, 128⟩ ∧
      ∀ p ∈ adjustTrace ⟨128, 128, 128⟩ ⟨128, 128, 128⟩ (4.5) (3.0),
        ¬ feasible ⟨128, 128, 128⟩ (4.5) (3.0) p.2) ∨
    (∃ p0 ∈ adjustTrace ⟨128, 128, 128⟩ ⟨128, 128, 128⟩ (4.5) (3.0),
      feasible ⟨128, 128, 128⟩ (4.5) (3.0) p0.2 ∧
      adjustBrandForContrast ⟨128, 128, 128⟩ ⟨128, 128, 128⟩ (4.5) (3.0) =
        p0.2 ∧
      ∀ p ∈ adjustTrace ⟨128, 128, 128⟩ ⟨128, 128, 128⟩ (4.5) (3.0),
        feasible ⟨128, 128, 128⟩ (4.5) (3.0) p.2 →
          |p0.1 - (rgbToHsl ⟨128, 128, 128⟩).l| ≤
            |p.1 - (rgbToHsl ⟨128, 128, 128⟩).l|) :=
  adjustBrandForContrast_best_candidate ⟨128, 128, 128⟩ ⟨128, 128, 128⟩
    (4.5) (3.0) contrast_gray_self_lt

end Tokken
